import Mathlib

/-!
Verification development for the pkgcore file-merge engine.

Shallow embedding of:
  * `pkgcore/ebuild/triggers.py` — `collapse_envd`, `simple_chksum_compare`,
    `ConfigProtectInstall`, `ConfigProtectUninstall`, `collision_protect`,
    `install_into_symdir_protect`, `SFPerms`, `FixImageSymlinks`;
  * `pkgcore/fs/livefs.py` — `gen_obj`, `_internal_iter_scan`, `iter_scan`,
    `intersect`.

Machine integers are modelled as `Nat`; Python bitwise operations are given
by fuel-bounded structurally recursive functions so that every definition
evaluates under `decide`.  Filesystem access (`stat`, `lstat`, `listdir`,
`readlink`, content checksumming) is modelled by explicit function-valued
parameters, and Python exceptions by `Except` / `Option` results.
-/

set_option maxRecDepth 32768

namespace Pkgcore

/-! ## Python-style primitive helpers -/

/-- Python `a & b` on non-negative ints below `2^64` (fuel-bounded binary
recursion so the kernel can evaluate it). -/
def pyAndAux : Nat → Nat → Nat → Nat
  | 0, _, _ => 0
  | f + 1, a, b => 2 * pyAndAux f (a / 2) (b / 2) + min (a % 2) (b % 2)

def pyAnd (a b : Nat) : Nat := pyAndAux 64 a b

/-- Python `a & ~b` (clear in `a` the bits set in `b`) on non-negative ints
below `2^64`. -/
def pyAndNotAux : Nat → Nat → Nat → Nat
  | 0, _, _ => 0
  | f + 1, a, b => 2 * pyAndNotAux f (a / 2) (b / 2) + a % 2 * (1 - b % 2)

def pyAndNot (a b : Nat) : Nat := pyAndNotAux 64 a b

/-- String concatenation through the underlying character lists (kernel
friendly). -/
def strCat (a b : String) : String := ⟨a.data ++ b.data⟩

def strLen (s : String) : Nat := s.data.length

/-- Python `s[n:]`. -/
def strDrop (s : String) (n : Nat) : String := ⟨s.data.drop n⟩

/-- Python `s.startswith(p)`. -/
def pyStartsWith (s p : String) : Bool := List.isPrefixOf p.data s.data

/-- Python `s.endswith(p)`. -/
def pyEndsWith (s p : String) : Bool := List.isSuffixOf p.data s.data

/-- Python `s.rstrip(c)` for a single strip character. -/
def rstripAll (s : String) (c : Char) : String :=
  ⟨(s.data.reverse.dropWhile (· = c)).reverse⟩

/-- Python `s.lstrip(c)` for a single strip character. -/
def lstripAll (s : String) (c : Char) : String := ⟨s.data.dropWhile (· = c)⟩

/-- Split a character list at every separator satisfying `p`, keeping empty
chunks (the behaviour of Python `str.split(sep)` for an explicit separator). -/
def splitWhen (p : Char → Bool) : List Char → List (List Char)
  | [] => [[]]
  | c :: cs =>
    match splitWhen p cs with
    | [] => [[c]]
    | h :: t => if p c then [] :: h :: t else (c :: h) :: t

/-- Python `s.split(":")` — empty fields are kept. -/
def pySplitColon (s : String) : List String :=
  (splitWhen (· = ':') s.data).map (fun l => String.mk l)

/-- Python `s.split()` — split on whitespace runs, empty fields dropped. -/
def pySplitWs (s : String) : List String :=
  ((splitWhen Char.isWhitespace s.data).filter (· ≠ [])).map (fun l => String.mk l)

def isDigitCh (c : Char) : Bool := '0'.val ≤ c.val && c.val ≤ '9'.val

/-- Value of a string of decimal digits (the cases of Python `int(s)` arising
for the zero-padded `%04i` backup counters). -/
def digitsToNat (cs : List Char) : Nat :=
  cs.foldl (fun acc c => 10 * acc + (c.val.toNat - '0'.val.toNat)) 0

def digitChar (n : Nat) : Char := Char.ofNat ('0'.toNat + n)

def natDecAux : Nat → Nat → List Char
  | 0, _ => []
  | f + 1, n => if n < 10 then [digitChar n] else natDecAux f (n / 10) ++ [digitChar (n % 10)]

def natDec (n : Nat) : List Char := natDecAux (n + 1) n

/-- Python `"%04i" % n` for `n ≥ 0`: decimal digits zero-padded to width 4. -/
def fmt04 (n : Nat) : String :=
  ⟨List.replicate (4 - (natDec n).length) '0' ++ natDec n⟩

/-- Lexicographic order on strings by character code (the order Python uses
when sorting filenames). -/
def strLeData : List Char → List Char → Bool
  | [], _ => true
  | _ :: _, [] => false
  | a :: as, b :: bs => if a = b then strLeData as bs else a.val ≤ b.val

def strLe (a b : String) : Bool := strLeData a.data b.data

/-- Stable insertion into a `le`-sorted list. -/
def insertSortedBy {α : Type} (le : α → α → Bool) (x : α) : List α → List α
  | [] => [x]
  | y :: ys => if le x y then x :: y :: ys else y :: insertSortedBy le x ys

/-- Stable insertion sort; models Python `sorted`. -/
def insortBy {α : Type} (le : α → α → Bool) (l : List α) : List α :=
  l.foldr (insertSortedBy le) []

def sortStrs (l : List String) : List String := insortBy strLe l

/-- Python `os.path.basename`: the part after the last slash. -/
def pyBasename (s : String) : String :=
  ⟨(s.data.reverse.takeWhile (· ≠ '/')).reverse⟩

/-- Python `os.path.dirname`: everything up to the last slash, with trailing
slashes stripped unless the result is all slashes. -/
def pyDirname (s : String) : String :=
  let h := (s.data.reverse.dropWhile (· ≠ '/')).reverse
  if h ≠ [] ∧ h.any (· ≠ '/') then ⟨(h.reverse.dropWhile (· = '/')).reverse⟩
  else ⟨h⟩

/-- Two-argument `os.path.join` (= `snakeoil.osutils.join` on the shapes the
embedded code produces): an absolute second component wins, otherwise the
components are glued with exactly one slash. -/
def pjoin2 (a b : String) : String :=
  if pyStartsWith b "/" then b
  else if pyEndsWith a "/" then strCat a b
  else strCat a (strCat "/" b)

/-! ## FS entity model

`pkgcore/fs/fs.py` is not part of the source tree under verification (only
its users are), so the entry classes are modelled from the spec:
an entry is a tagged variant over file / dir / symlink / fifo / device,
carrying `location`, `mode`, `uid`, `gid`, `mtime`; a regular file also
carries its checksum mapping (which includes the `"size"` key, as used by
`simple_chksum_compare`); a symlink carries its raw `target`; a device
carries `major`/`minor`. -/

structure FsAttrs where
  location : String
  mode : Nat
  uid : Nat
  gid : Nat
  mtime : Nat
deriving DecidableEq, Repr

/-- Modelled from the spec: the `pkgcore.fs.fs` entry variants (fsFile,
fsDir, fsSymlink, fsFifo, fsDev), which are outside `src/`. -/
inductive FsObj where
  | fsFile (attrs : FsAttrs) (chksums : List (String × Nat))
  | fsDir (attrs : FsAttrs)
  | fsSymlink (attrs : FsAttrs) (target : String)
  | fsFifo (attrs : FsAttrs)
  | fsDev (attrs : FsAttrs) (major minor : Nat)
deriving DecidableEq, Repr

namespace FsObj

def attrs : FsObj → FsAttrs
  | fsFile a _ => a
  | fsDir a => a
  | fsSymlink a _ => a
  | fsFifo a => a
  | fsDev a _ _ => a

def location (x : FsObj) : String := x.attrs.location

def mode (x : FsObj) : Nat := x.attrs.mode

def chksums : FsObj → List (String × Nat)
  | fsFile _ c => c
  | _ => []

def target : FsObj → String
  | fsSymlink _ t => t
  | _ => ""

def is_reg : FsObj → Bool
  | fsFile _ _ => true
  | _ => false

def is_dir : FsObj → Bool
  | fsDir _ => true
  | _ => false

def is_sym : FsObj → Bool
  | fsSymlink _ _ => true
  | _ => false

/-- The `change_attributes(mode=m)` copy used by `SFPerms`. -/
def withMode (x : FsObj) (m : Nat) : FsObj :=
  match x with
  | fsFile a c => fsFile { a with mode := m } c
  | fsDir a => fsDir { a with mode := m }
  | fsSymlink a t => fsSymlink { a with mode := m } t
  | fsFifo a => fsFifo { a with mode := m }
  | fsDev a j n => fsDev { a with mode := m } j n

/-- The `change_attributes(location=l)` copy used by `ConfigProtectInstall`. -/
def withLocation (x : FsObj) (l : String) : FsObj :=
  match x with
  | fsFile a c => fsFile { a with location := l } c
  | fsDir a => fsDir { a with location := l }
  | fsSymlink a t => fsSymlink { a with location := l } t
  | fsFifo a => fsFifo { a with location := l }
  | fsDev a j n => fsDev { a with location := l } j n

/-- The `change_attributes(target=t)` copy used by `FixImageSymlinks`. -/
def withTarget (x : FsObj) (t : String) : FsObj :=
  match x with
  | fsSymlink a _ => fsSymlink a t
  | y => y

end FsObj

/-! ## Content sets

Modelled from the spec: `pkgcore.fs.contents.contentsSet` (not under `src/`)
is a path-keyed collection of entries — membership, difference and mutation
all operate on the normalized `location` alone; `add`/`update` replace any
entry already present at the same path. A set is modelled as the list of its
entries. -/

/-- Modelled from the spec: path-keyed membership of a content set. -/
def csetHasLoc (cs : List FsObj) (loc : String) : Bool :=
  cs.any (fun e => e.location = loc)

/-- Modelled from the spec: lookup by path identity (`cset[x]`). -/
def csetLookupLoc (cs : List FsObj) (loc : String) : Option FsObj :=
  cs.find? (fun e => e.location = loc)

/-- Modelled from the spec: removal by path identity. -/
def csetRemoveLoc (cs : List FsObj) (loc : String) : List FsObj :=
  cs.filter (fun e => e.location ≠ loc)

/-- Modelled from the spec: `cset.add(e)` — replaces any entry at the same
path. -/
def csetAdd (cs : List FsObj) (e : FsObj) : List FsObj :=
  csetRemoveLoc cs e.location ++ [e]

/-- Modelled from the spec: `cset.update(es)` — batched `add`, later entries
superseding earlier ones at the same path. -/
def csetUpdate (cs : List FsObj) (es : List FsObj) : List FsObj :=
  es.foldl csetAdd cs

/-- Modelled from the spec: `a.difference(b)` on path identity only. -/
def csetDifference (a b : List FsObj) : List FsObj :=
  a.filter (fun e => ! csetHasLoc b e.location)

/-- Modelled from the spec: typed iteration `cset.iterfiles()`. -/
def csetIterFiles (cs : List FsObj) : List FsObj := cs.filter FsObj.is_reg

/-- Modelled from the spec: typed iteration `cset.iterdirs()`. -/
def csetIterDirs (cs : List FsObj) : List FsObj := cs.filter FsObj.is_dir

/-- Modelled from the spec: typed iteration `cset.iterlinks()`. -/
def csetIterLinks (cs : List FsObj) : List FsObj := cs.filter FsObj.is_sym

/-! ## simple_chksum_compare (ebuild/triggers.py lines 139-151) -/

/-- Python `d.get(k)` on a checksum mapping. -/
def chkGet (m : List (String × Nat)) (k : String) : Option Nat :=
  (m.find? (fun p => p.1 = k)).map (·.2)

/-- The `for k, v in x.chksums.iteritems()` loop of `simple_chksum_compare`:
`.error false` models the early `return False`, `.ok found` models falling
through with the final value of `found`. -/
def sccLoop (ychk : List (String × Nat)) : List (String × Nat) → Bool → Except Bool Bool
  | [], found => .ok found
  | (k, v) :: rest, found =>
    if k = "size" then sccLoop ychk rest found
    else
      match chkGet ychk k with
      | none => sccLoop ychk rest found
      | some o => if o ≠ v then .error false else sccLoop ychk rest true

/-- Embeds `simple_chksum_compare(x, y)` over the two entries' checksum
mappings. -/
def simple_chksum_compare (xchk ychk : List (String × Nat)) : Bool :=
  match sccLoop ychk xchk false with
  | .error r => r
  | .ok found =>
    match chkGet xchk "size", chkGet ychk "size" with
    | some sx, some sy => sx == sy
    | _, _ => found

/-- Entry-level wrapper matching the call sites in `triggers.py`. -/
def simple_chksum_compareE (x y : FsObj) : Bool :=
  simple_chksum_compare x.chksums y.chksums

/-- One `x`-side item makes the comparison loop return `False`: a non-size
algorithm that `y` also carries, with a different digest. -/
def sccMismatchB (ychk : List (String × Nat)) (p : String × Nat) : Bool :=
  !(p.1 = "size") &&
    (match chkGet ychk p.1 with
     | some o => !(o = p.2)
     | none => false)

/-- One `x`-side item sets `found`: a non-size algorithm that `y` also
carries. -/
def sccHitB (ychk : List (String × Nat)) (p : String × Nat) : Bool :=
  !(p.1 = "size") && (chkGet ychk p.1).isSome

/-! ## SFPerms (ebuild/triggers.py lines 450-468)

The observer sink is modelled by accumulating the warning strings; Python
`"... %r" % x` renders the whole entry, modelled here by the entry's
location. -/

/-- Resets queued by one iteration of the `for x in cset.iterfiles()` loop
of `SFPerms.trigger` (line order: the `04000` check first, then `02000`). -/
def sfpermsResetsOf (x : FsObj) : List FsObj :=
  (if pyAnd x.mode 0o4000 ≠ 0 ∧ pyAnd x.mode 0o044 ≠ 0 then
     [x.withMode (pyAndNot x.mode 0o044)] else []) ++
  (if pyAnd x.mode 0o2000 ≠ 0 ∧ pyAnd x.mode 0o004 ≠ 0 then
     [x.withMode (pyAndNot x.mode 0o004)] else [])

/-- Warnings emitted by one iteration of the `SFPerms.trigger` loop (note the
source emits the SetGID-worded message in the `04000` branch and vice
versa). -/
def sfpermsWarnsOf (x : FsObj) : List String :=
  (if pyAnd x.mode 0o4000 ≠ 0 ∧ pyAnd x.mode 0o044 ≠ 0 then
     [strCat "sfperms: dropping group/world read due to SetGID: " x.location] else []) ++
  (if pyAnd x.mode 0o2000 ≠ 0 ∧ pyAnd x.mode 0o004 ≠ 0 then
     [strCat "sfperms: dropping world read due to SetUID: " x.location] else [])

/-- One loop iteration of `SFPerms.trigger`, threading the accumulated
`resets` and the warnings already sent to the observer. -/
def sfpermsStep (acc : List FsObj × List String) (x : FsObj) : List FsObj × List String :=
  let acc :=
    if pyAnd x.mode 0o4000 ≠ 0 then
      if pyAnd x.mode 0o044 ≠ 0 then
        (acc.1 ++ [x.withMode (pyAndNot x.mode 0o044)],
         acc.2 ++ [strCat "sfperms: dropping group/world read due to SetGID: " x.location])
      else acc
    else acc
  if pyAnd x.mode 0o2000 ≠ 0 then
    if pyAnd x.mode 0o004 ≠ 0 then
      (acc.1 ++ [x.withMode (pyAndNot x.mode 0o004)],
       acc.2 ++ [strCat "sfperms: dropping world read due to SetUID: " x.location])
    else acc
  else acc

/-- Embeds `SFPerms.trigger(engine, cset)`: returns the content set after the
final `cset.update(resets)` together with the warnings emitted. -/
def SFPerms_trigger (cset : List FsObj) : List FsObj × List String :=
  let rw := (csetIterFiles cset).foldl sfpermsStep ([], [])
  (csetUpdate cset rw.1, rw.2)

/-! ## collision_protect (ebuild/triggers.py lines 336-380)

The config-protect filter built by `gen_config_protect_filter` is passed in
as a predicate on locations; `some paths` models `BlockModification` being
raised with the sorted colliding entries, `none` models a quiet return. -/

def collision_protect_trigger (pf : String → Bool)
    (install existing old_cset : List FsObj) : Option (List String) :=
  if existing = [] then none
  else
    let colliding := csetDifference existing (csetIterDirs install)
    let l := colliding.filter (fun x => pyEndsWith x.location ".keep" || pf x.location)
    let colliding := csetDifference colliding l
    if colliding = [] then none
    else
      let colliding := csetDifference colliding old_cset
      if colliding ≠ [] then some (sortStrs (colliding.map FsObj.location)) else none

/-- Claim-side remainder: the live entries minus install-manifest directory
paths, with `.keep`-suffixed, config-protected and (for replaces) old-package
paths removed — computed in a single pass, as the spec words it. -/
def collisionRemainder (pf : String → Bool)
    (install existing old_cset : List FsObj) : List FsObj :=
  existing.filter (fun x =>
    ! csetHasLoc (csetIterDirs install) x.location &&
    ! pyEndsWith x.location ".keep" &&
    ! pf x.location &&
    ! csetHasLoc old_cset x.location)

/-! ## install_into_symdir_protect (ebuild/triggers.py lines 382-415) -/

/-- Embeds lines 399-415 of `install_into_symdir_protect.trigger` — the
check for files installed into symlinked directories that sits below the
unconditional `return` at line 398 and therefore never executes. -/
def install_into_symdir_body (install existing : List FsObj) : Except String Unit :=
  if existing = [] then .ok ()
  else
    let install_into_symdir :=
      [csetIterLinks install, csetIterLinks existing].flatMap (fun linkset =>
        if linkset = [] then []
        else (csetIterFiles install).flatMap (fun inst_file =>
          (linkset.filter (fun sym =>
            pyStartsWith inst_file.location (strCat sym.location "/"))).map
            (fun _ => inst_file)))
    if install_into_symdir ≠ [] then
      .error "file(s) installed into symlinked dir, will break when removing files from the original dir"
    else .ok ()

/-- Embeds `install_into_symdir_protect.trigger(engine, install, existing,
old_cset=())`: line 398 is a bare `return`, so the trigger finishes
immediately; `install_into_symdir_body` (lines 399-415) is dead code. -/
def install_into_symdir_protect_trigger
    (install existing old_cset : List FsObj) : Except String Unit :=
  Except.ok ()

/-! ## ConfigProtectUninstall (ebuild/triggers.py lines 282-308)

The `IOError` guard around the checksum comparison concerns lazy live-file
reads; checksums are plain data in this model, so that handler has no
behaviour to model.  `uninstall_cset[x]` and `del uninstall_cset[x]` raise
`KeyError` when the path is absent; `.error` models an uncaught exception. -/

/-- The `for x in existing_cset.iterfiles()` collection loop: the list of
recorded entries to drop from the uninstall set, or an uncaught
`KeyError`. -/
def cpuCollect (pf : String → Bool) (uninstall : List FsObj) :
    List FsObj → Except String (List FsObj)
  | [] => .ok []
  | x :: rest =>
    if pyEndsWith x.location "/.keep" then cpuCollect pf uninstall rest
    else if pf x.location then
      match csetLookupLoc uninstall x.location with
      | none => .error "KeyError"
      | some recorded_ent =>
        if ! simple_chksum_compareE recorded_ent x then
          (cpuCollect pf uninstall rest).map (recorded_ent :: ·)
        else cpuCollect pf uninstall rest
    else cpuCollect pf uninstall rest

/-- The final `for x in remove: del uninstall_cset[x]` loop. -/
def cpuDelete : List FsObj → List FsObj → Except String (List FsObj)
  | [], cs => .ok cs
  | e :: rest, cs =>
    if csetHasLoc cs e.location then cpuDelete rest (csetRemoveLoc cs e.location)
    else .error "KeyError"

/-- Embeds `ConfigProtectUninstall.trigger(engine, existing_cset,
uninstall_cset)`, returning the mutated uninstall set. -/
def ConfigProtectUninstall_trigger (pf : String → Bool)
    (existing uninstall : List FsObj) : Except String (List FsObj) :=
  match cpuCollect pf uninstall (csetIterFiles existing) with
  | .error e => .error e
  | .ok remove => cpuDelete remove uninstall

/-- Whether `ConfigProtectUninstall` drops recorded entry `e`: some existing
protected live file at the same path (not a `/.keep` sentinel) has a
checksum that no longer matches `e`. -/
def cpuShouldDrop (pf : String → Bool) (existing : List FsObj) (e : FsObj) : Bool :=
  (csetIterFiles existing).any (fun x =>
    x.location = e.location &&
    ! pyEndsWith x.location "/.keep" &&
    pf x.location &&
    ! simple_chksum_compareE e x)

/-! ## FixImageSymlinks (ebuild/triggers.py lines 493-515) -/

/-- Embeds `FixImageSymlinks.trigger(engine, cset)` with `d_source` the value
of `self.format_op.env["D"]`; returns the updated content set and the
warnings emitted. -/
def FixImageSymlinks_trigger (d_source : String) (cset : List FsObj) :
    List FsObj × List String :=
  let d := strCat (rstripAll d_source '/') "/"
  let l := (csetIterLinks cset).filter (fun x => pyStartsWith x.target d)
  let warns := l.map (fun x =>
    strCat "correcting " (strCat x.location (strCat " sym pointing into $D: " x.target)))
  let d_len := strLen d
  (csetUpdate cset (l.map (fun x =>
      x.withTarget (pjoin2 "/" (strDrop x.target d_len)))), warns)

/-! ## ConfigProtectInstall (ebuild/triggers.py lines 179-257)

Parameters model the trigger's environment: `pf` is the predicate built by
`gen_config_protect_filter(...).match`; `listd loc` is
`listdir_files(loc)` with `none` modelling an `ENOENT` `OSError` (the only
errno the source handles); `liveChk p` is the checksum mapping of
`livefs.gen_obj(p)` for the live file at `p`. -/

/-- Ordered-dict append used to model `protected.setdefault(key, []).append(v)`. -/
def assocAppend {β : Type} (d : List (String × List β)) (k : String) (v : β) :
    List (String × List β) :=
  if d.any (fun p => p.1 = k) then
    d.map (fun p => if p.1 = k then (p.1, p.2 ++ [v]) else p)
  else d ++ [(k, [v])]

def assocGet {β : Type} (d : List (String × List β)) (k : String) : Option (List β) :=
  (d.find? (fun p => p.1 = k)).map (·.2)

/-- The first loop of `ConfigProtectInstall.trigger`: group the pending
differing-content replacements by `pjoin(offset, dirname(x.location).lstrip("/"))`;
a missing replacement (`install_cset[x]`) is an uncaught `KeyError`. -/
def cpiCollect (pf : String → Bool) (offset : String) (install : List FsObj)
    (acc : List (String × List (String × FsObj))) :
    List FsObj → Except String (List (String × List (String × FsObj)))
  | [] => .ok acc
  | x :: rest =>
    if pyEndsWith x.location "/.keep" then cpiCollect pf offset install acc rest
    else if pf x.location then
      match csetLookupLoc install x.location with
      | none => .error "KeyError"
      | some replacement =>
        if ! simple_chksum_compareE replacement x then
          cpiCollect pf offset install
            (assocAppend acc (pjoin2 offset (lstripAll (pyDirname x.location) '/'))
              (pyBasename replacement.location, replacement)) rest
        else cpiCollect pf offset install acc rest
    else cpiCollect pf offset install acc rest

/-- Parse a `._cfgNNNN_<name>` backup filename: `int(x[5:9])`, `x[9] == "_"`,
`fn = x[10:]`; parse failures (`ValueError`/`IndexError`) are skipped by the
source.  (Backups are generated zero-padded by `"._cfg%04i_%s"`, so the
four counter characters are decimal digits.) -/
def cfgParse (x : String) : Option (Nat × String) :=
  let cs := x.data
  if 10 ≤ cs.length ∧ ((cs.drop 5).take 4).all isDigitCh ∧ (cs.drop 9).take 1 = ['_'] then
    some (digitsToNat ((cs.drop 5).take 4), ⟨cs.drop 10⟩)
  else none

/-- Build the `updates` table for one protected directory: keys are the
pending basenames, and every parsed `._cfg` backup whose trailing name is a
pending basename contributes `(count, fn)` — note the source appends the
bare basename `fn`, not the backup filename `x` it came from. -/
def cpiUpdates (entries : List (String × FsObj)) (backups : List String) :
    List (String × List (Nat × String)) :=
  let init := (entries.map (·.1)).foldl
    (fun (d : List (String × List (Nat × String))) k =>
      if d.any (fun p => p.1 = k) then d else d ++ [(k, [])]) []
  backups.foldl (fun d x =>
    match cfgParse x with
    | none => d
    | some (count, fn) => if d.any (fun p => p.1 = fn) then assocAppend d fn (count, fn) else d)
    init

/-- The counter-selection loop: `count = 0`, then for each `(cfg_count,
cfg_fname)` either reuse `cfg_count` on a checksum match of the live file at
`pjoin(dir_loc, cfg_fname)` (and stop) or continue with
`max(count, cfg_count + 1)`. -/
def cpiCount (liveChk : String → List (String × Nat)) (dir_loc : String)
    (entry : FsObj) (count : Nat) : List (Nat × String) → Nat
  | [] => count
  | (cfg_count, cfg_fname) :: rest =>
    if simple_chksum_compare (liveChk (pjoin2 dir_loc cfg_fname)) entry.chksums then
      cfg_count
    else cpiCount liveChk dir_loc entry (max count (cfg_count + 1)) rest

/-- The rename loop over one directory's pending entries: remove the entry
from the install set (a `KeyError` skips the entry), add it back under the
`._cfg%04i_<name>` location and record the rename. -/
def cpiRename (liveChk : String → List (String × Nat)) (dir_loc : String)
    (updates : List (String × List (Nat × String)))
    (acc : List FsObj × List (FsObj × FsObj)) :
    List (String × FsObj) → List FsObj × List (FsObj × FsObj)
  | [] => acc
  | (fname, entry) :: rest =>
    let count := cpiCount liveChk dir_loc entry 0 ((assocGet updates fname).getD [])
    if ! csetHasLoc acc.1 entry.location then
      cpiRename liveChk dir_loc updates acc rest
    else
      let new_fn := pjoin2 dir_loc (strCat "._cfg" (strCat (fmt04 count) (strCat "_" fname)))
      let new_entry := entry.withLocation new_fn
      cpiRename liveChk dir_loc updates
        (csetAdd (csetRemoveLoc acc.1 entry.location) new_entry,
         acc.2 ++ [(new_entry, entry)]) rest

/-- The second loop of `ConfigProtectInstall.trigger`, over the grouped
directories: list the directory (`none` = `ENOENT`, skipped), collect the
sorted `._cfg` backups, build `updates` and run the rename loop. -/
def cpiDirs (listd : String → Option (List String))
    (liveChk : String → List (String × Nat))
    (acc : List FsObj × List (FsObj × FsObj)) :
    List (String × List (String × FsObj)) → List FsObj × List (FsObj × FsObj)
  | [] => acc
  | (dir_loc, entries) :: rest =>
    match listd dir_loc with
    | none => cpiDirs listd liveChk acc rest
    | some names =>
      let backups := insortBy strLe (names.filter (fun x => pyStartsWith x "._cfg"))
      let updates := cpiUpdates entries backups
      cpiDirs listd liveChk (cpiRename liveChk dir_loc updates acc entries) rest

/-- Embeds `ConfigProtectInstall.trigger(engine, existing_cset,
install_cset)`: returns the mutated install set and the recorded
`renames` (new entry, original entry) pairs. -/
def ConfigProtectInstall_trigger (pf : String → Bool) (offset : String)
    (listd : String → Option (List String)) (liveChk : String → List (String × Nat))
    (existing install : List FsObj) :
    Except String (List FsObj × List (FsObj × FsObj)) :=
  match cpiCollect pf offset install [] (csetIterFiles existing) with
  | .error e => .error e
  | .ok protected_d => .ok (cpiDirs listd liveChk (install, []) protected_d)

/-! ## collapse_envd (ebuild/triggers.py lines 25-89)

A fragment directory is modelled as the list of `(filename, parsed dict)`
pairs, the dict being the ordered `KEY=value` assignments produced by
`snakeoil.fileutils.read_bash_dict` (external to this repository). -/

def colon_parsed : List String :=
  ["ADA_INCLUDE_PATH", "ADA_OBJECTS_PATH", "INFODIR", "INFOPATH",
   "LDPATH", "MANPATH", "PATH", "PRELINK_PATH", "PRELINK_PATH_MASK",
   "PYTHONPATH", "PKG_CONFIG_PATH", "ROOTPATH"]

def incrementals : List String :=
  ["ADA_INCLUDE_PATH", "ADA_OBJECTS_PATH", "CLASSPATH", "CONFIG_PROTECT",
   "CONFIG_PROTECT_MASK", "INFODIR", "INFOPATH", "KDEDIRS", "LDPATH",
   "MANPATH", "PATH", "PRELINK_PATH", "PRELINK_PATH_MASK", "PYTHONPATH",
   "ROOTPATH", "PKG_CONFIG_PATH"]

/-- Name-sets are modelled as lists with membership semantics. -/
def setMem (l : List String) (k : String) : Bool := l.any (fun s => s = k)

/-- The fragment-name filter of `collapse_envd`: skip backups, `._cfg`
copies, and names that are not at least three characters starting with two
decimal digits. -/
def envdNameOk (x : String) : Bool :=
  !(pyEndsWith x ".bak" || pyEndsWith x "~" || pyStartsWith x "._cfg" ||
    decide (strLen x ≤ 2) || !((x.data.take 2).all isDigitCh))

/-- The fragments actually read, in `sorted(listdir_files(base))` order. -/
def envdFragments (frags : List (String × List (String × String))) :
    List (String × List (String × String)) :=
  (insortBy (fun a b => strLe a.1 b.1) frags).filter (fun f => envdNameOk f.1)

/-- The collection loop: `collapsed_d.setdefault(k, []).append(v)` over every
kept fragment's assignments. -/
def envdCollect (frags : List (String × List (String × String))) :
    List (String × List String) :=
  (envdFragments frags).foldl
    (fun d f => f.2.foldl (fun d kv => assocAppend d kv.1 kv.2) d) []

/-- Python `dict.pop(k, [])` on the collected mapping: the removed value and
the remaining mapping. -/
def assocPop (d : List (String × List String)) (k : String) :
    List String × List (String × List String) :=
  ((assocGet d k).getD [], d.filter (fun p => p.1 ≠ k))

/-- A collapsed environment value: ordinary keys collapse to a string,
incremental keys to a token list. -/
inductive EnvVal where
  | str (s : String)
  | toks (l : List String)
deriving DecidableEq, Repr

/-- Embeds `collapse_envd(base)`: the collapsed mapping plus the effective
incremental and colon-separated name sets. -/
def collapse_envd (frags : List (String × List (String × String))) :
    List (String × EnvVal) × List String × List String :=
  let collapsed_d := envdCollect frags
  let (colon_vals, collapsed_d) := assocPop collapsed_d "COLON_SEPARATED"
  let loc_colon_parsed := colon_vals.foldl
    (fun s x => let v := pySplitWs x; if v ≠ [] then s ++ v else s) colon_parsed
  let loc_incrementals := incrementals ++ loc_colon_parsed
  let (space_vals, collapsed_d) := assocPop collapsed_d "SPACE_SEPARATED"
  let loc_incrementals := space_vals.foldl
    (fun s x => let v := pySplitWs x; if v ≠ [] then s ++ v else s) loc_incrementals
  let out := collapsed_d.map (fun kv =>
    if ! setMem loc_incrementals kv.1 then (kv.1, EnvVal.str (kv.2.getLastD ""))
    else if setMem loc_colon_parsed kv.1 then
      (kv.1, EnvVal.toks ((kv.2.flatMap pySplitColon).filter (· ≠ "")))
    else
      (kv.1, EnvVal.toks ((kv.2.flatMap pySplitWs).filter (· ≠ ""))))
  (out, loc_incrementals, loc_colon_parsed)

/-- Lookup in the collapsed mapping. -/
def envdLookup (d : List (String × EnvVal)) (k : String) : Option EnvVal :=
  (d.find? (fun p => p.1 = k)).map (·.2)

/-! ## livefs (fs/livefs.py)

The live filesystem is modelled as explicit effect functions returning
`Except errno`: `lstatE`/`statE` for `os.lstat`/`os.stat`, `readlinkE` for
`os.readlink`, `listdirE` for `snakeoil.osutils.listdir`, and `chks` for the
lazily-computed content checksum mapping of `gen_chksums`. -/

structure StatR where
  st_mode : Nat
  st_uid : Nat
  st_gid : Nat
  st_mtime : Nat
  st_size : Nat
  st_major : Nat
  st_minor : Nat
deriving DecidableEq, Repr

structure LiveFS where
  lstatE : String → Except Nat StatR
  statE : String → Except Nat StatR
  readlinkE : String → Except Nat String
  listdirE : String → Except Nat (List String)
  chks : String → List (String × Nat)

def ENOENT : Nat := 2

def ENOTDIR : Nat := 20

/-- `stat.S_IMODE`: the low 12 permission bits. -/
def S_IMODE (m : Nat) : Nat := m % 0o10000

def S_IFMT_MASK : Nat := 0o170000

def S_ISREG (m : Nat) : Bool := pyAnd m S_IFMT_MASK = 0o100000

def S_ISDIR (m : Nat) : Bool := pyAnd m S_IFMT_MASK = 0o040000

def S_ISLNK (m : Nat) : Bool := pyAnd m S_IFMT_MASK = 0o120000

def S_ISFIFO (m : Nat) : Bool := pyAnd m S_IFMT_MASK = 0o010000

/-- Builds the fs object from an obtained stat result (the tail of
`gen_obj`): regular files get `size` plus the lazy checksum mapping, device
nodes keep the full `st_mode` and carry `major`/`minor`
(`get_major_minor` lives in `pkgcore.fs.fs`, outside `src/`; modelled from
the spec as the stat's device numbers). -/
def gen_obj_from_stat (fs : LiveFS) (path real : String) (st : StatR) :
    Except Nat FsObj :=
  let mode := st.st_mode
  let a : FsAttrs := ⟨path, S_IMODE mode, st.st_uid, st.st_gid, st.st_mtime⟩
  if S_ISREG mode then
    .ok (FsObj.fsFile a (("size", st.st_size) :: fs.chks real))
  else if S_ISDIR mode then .ok (.fsDir a)
  else if S_ISLNK mode then
    match fs.readlinkE real with
    | .ok t => .ok (.fsSymlink a t)
    | .error e => .error e
  else if S_ISFIFO mode then .ok (.fsFifo a)
  else .ok (.fsDev { a with mode := mode } st.st_major st.st_minor)

/-- Embeds `gen_obj(path, stat, chksum_handlers, real_location, stat_func)`;
`follow = true` means `stat_func is os.stat` (the symlink-following scan),
`follow = false` the default `os.lstat`. -/
def gen_obj (fs : LiveFS) (path : String) (statv : Option StatR)
    (real_location : Option String) (follow : Bool) : Except Nat FsObj :=
  let real := real_location.getD path
  let str : Except Nat StatR :=
    match statv with
    | some s => .ok s
    | none =>
      match (if follow then fs.statE real else fs.lstatE real) with
      | .ok s => .ok s
      | .error e => if !follow || e ≠ ENOENT then .error e else fs.lstatE real
  match str with
  | .error e => .error e
  | .ok st => gen_obj_from_stat fs path real st

/-- One `listdir(base)` round of the `_internal_iter_scan` work loop:
children objects in listing order together with the subdirectory paths to
enqueue; any `gen_obj` error propagates. -/
def scanChildren (fs : LiveFS) (follow : Bool) (base : String) :
    List String → Except Nat (List FsObj × List String)
  | [] => .ok ([], [])
  | x :: xs =>
    let p := pjoin2 base x
    match gen_obj fs p none (some p) follow with
    | .error e => .error e
    | .ok obj =>
      match scanChildren fs follow base xs with
      | .error e => .error e
      | .ok (objs, nds) => .ok (obj :: objs, if obj.is_dir then p :: nds else nds)

/-- The `while dirs:` deque loop of `_internal_iter_scan`.  The source loops
until the deque empties; `fuel` bounds the number of directories dequeued
(any finite tree is fully scanned once `fuel` is at least the number of its
directories). -/
def scanDirs (fs : LiveFS) (follow : Bool) : Nat → List String → Except Nat (List FsObj)
  | _, [] => .ok []
  | 0, _ :: _ => .ok []
  | fuel + 1, base :: rest =>
    match fs.listdirE base with
    | .error e => .error e
    | .ok names =>
      match scanChildren fs follow base names with
      | .error e => .error e
      | .ok (objs, nds) =>
        match scanDirs fs follow fuel (rest ++ nds) with
        | .error e => .error e
        | .ok more => .ok (objs ++ more)

/-- `snakeoil.osutils.normpath` (external): collapse duplicate separators and
strip the trailing one; the `.`/`..` handling of the real helper is not
needed by the paths in this development. -/
def normpathS (s : String) : String :=
  let parts := (splitWhen (· = '/') s.data).filter (· ≠ [])
  if pyStartsWith s "/" then
    ⟨'/' :: (parts.intersperse ['/']).flatten⟩
  else ⟨(parts.intersperse ['/']).flatten⟩

/-- Embeds `_internal_iter_scan(path, chksum_handlers, stat_func)` with the
stream materialised: the root object first, then the breadth-first children.
An error raised mid-iteration propagates to the consumer (who loses the
already-yielded prefix, as `scan`'s `list(...)` does). -/
def _internal_iter_scan (fs : LiveFS) (follow : Bool) (fuel : Nat) (path : String) :
    Except Nat (List FsObj) :=
  let root := normpathS path
  match gen_obj fs root none none follow with
  | .error e => .error e
  | .ok obj =>
    if ! obj.is_dir then .ok [obj]
    else
      match scanDirs fs follow fuel [root] with
      | .error e => .error e
      | .ok objs => .ok (obj :: objs)

/-- Embeds `iter_scan(path, offset=None, follow_symlinks, chksum_types)`:
`stat_func = follow_symlinks and os.stat or os.lstat`. -/
def iter_scan (fs : LiveFS) (fuel : Nat) (path : String)
    (follow_symlinks : Bool) : Except Nat (List FsObj) :=
  _internal_iter_scan fs follow_symlinks fuel path

/-- Embeds `intersect(cset, realpath=False)`: stat every path of the set,
skipping `ENOENT`/`ENOTDIR` races, propagating every other error. -/
def intersectScan (fs : LiveFS) : List FsObj → Except Nat (List FsObj)
  | [] => .ok []
  | x :: rest =>
    match gen_obj fs x.location none none false with
    | .ok obj => (intersectScan fs rest).map (obj :: ·)
    | .error e =>
      if e ≠ ENOENT ∧ e ≠ ENOTDIR then .error e else intersectScan fs rest

/-! ## Claim-side characterisations and proof helpers -/

instance {ε α : Type} [DecidableEq ε] [DecidableEq α] : DecidableEq (Except ε α) :=
  fun a b =>
    match a, b with
    | .ok x, .ok y => if h : x = y then .isTrue (by simp [h]) else .isFalse (by simp [h])
    | .error x, .error y => if h : x = y then .isTrue (by simp [h]) else .isFalse (by simp [h])
    | .ok _, .error _ => .isFalse (by simp)
    | .error _, .ok _ => .isFalse (by simp)

def optOr {α : Type} : Option α → Option α → Option α
  | some a, _ => some a
  | none, b => b

/-- The last entry of `es` located at `loc` (the entry that survives a
batched `csetUpdate`). -/
def lastAtLoc (es : List FsObj) (loc : String) : Option FsObj :=
  es.foldl (fun acc e => if e.location = loc then some e else acc) none

/-- What `SFPerms` actually leaves at a file's path: when both hardening
checks fire the batched update lets the later (`02000`-branch) reset
supersede the earlier one. -/
def sfpermsResult (x : FsObj) : FsObj :=
  if pyAnd x.mode 0o2000 ≠ 0 ∧ pyAnd x.mode 0o004 ≠ 0 then
    x.withMode (pyAndNot x.mode 0o004)
  else if pyAnd x.mode 0o4000 ≠ 0 ∧ pyAnd x.mode 0o044 ≠ 0 then
    x.withMode (pyAndNot x.mode 0o044)
  else x

/-- Claim-side removal list for `ConfigProtectUninstall`: the recorded
entries of protected, non-sentinel existing files whose live checksum no
longer matches, in encounter order. -/
def cpuRemoveSpec (pf : String → Bool) (uninstall : List FsObj) :
    List FsObj → List FsObj
  | [] => []
  | x :: rest =>
    if ! pyEndsWith x.location "/.keep" && pf x.location then
      match csetLookupLoc uninstall x.location with
      | some r =>
        if ! simple_chksum_compareE r x then r :: cpuRemoveSpec pf uninstall rest
        else cpuRemoveSpec pf uninstall rest
      | none => cpuRemoveSpec pf uninstall rest
    else cpuRemoveSpec pf uninstall rest

/-- Values contributed by one fragment dict for key `k`, in order. -/
def gatherItems (k : String) (items : List (String × String)) : List String :=
  (items.filter (fun p => p.1 = k)).map (·.2)

/-- Claim-side value history of key `k`: every value assigned to `k` by the
kept fragments, in filename-sorted encounter order. -/
def envdGather (frags : List (String × List (String × String))) (k : String) :
    List String :=
  (envdFragments frags).flatMap (fun f => gatherItems k f.2)

/-- Claim-side effective colon-separated name set: the built-ins plus every
name listed in a `COLON_SEPARATED` value. -/
def envdEffColon (frags : List (String × List (String × String))) : List String :=
  colon_parsed ++ (envdGather frags "COLON_SEPARATED").flatMap pySplitWs

/-- Claim-side effective incremental name set: the built-ins, the effective
colon-separated names, and every name listed in a `SPACE_SEPARATED`
value. -/
def envdEffInc (frags : List (String × List (String × String))) : List String :=
  (incrementals ++ envdEffColon frags) ++
    (envdGather frags "SPACE_SEPARATED").flatMap pySplitWs

/-- Claim-side collapse of one key's value history: last-seen value for
ordinary keys; token-split concatenation (colon- or whitespace-split, empty
tokens discarded, duplicates preserved) for incremental keys. -/
def envdReinterpret (inc colon : List String) (k : String) (vs : List String) :
    EnvVal :=
  if ! setMem inc k then .str (vs.getLastD "")
  else if setMem colon k then .toks ((vs.flatMap pySplitColon).filter (· ≠ ""))
  else .toks ((vs.flatMap pySplitWs).filter (· ≠ ""))

/-- Extension of an optional value history by further values: absent stays
absent only when nothing is added (the effect of `setdefault(k, []).append`
sequences on one key). -/
def optExtend (o : Option (List String)) (vs : List String) : Option (List String) :=
  match o, vs with
  | none, [] => none
  | o, vs => some (o.getD [] ++ vs)

/-! ### Concrete scenarios used by counterexamples and witnesses -/

/-- The `ConfigProtectInstall` dedup scenario: `/etc` holds the live config
`foo` (md5 1) and one numbered backup `._cfg0000_foo` whose content equals
the incoming replacement (md5 2). -/
def cpiListdEx : String → Option (List String) := fun s =>
  if s = "/etc" then some ["._cfg0000_foo", "foo"] else none

def cpiLiveEx : String → List (String × Nat) := fun s =>
  if s = "/etc/foo" then [("md5", 1), ("size", 3)]
  else if s = "/etc/._cfg0000_foo" then [("md5", 2), ("size", 3)] else []

def etcFilter : String → Bool := fun l => pyStartsWith l "/etc/"

def cpiExistingEx : FsObj := .fsFile ⟨"/etc/foo", 0o644, 0, 0, 0⟩ [("md5", 1), ("size", 3)]

def cpiInstallEx : FsObj := .fsFile ⟨"/etc/foo", 0o644, 0, 0, 0⟩ [("md5", 2), ("size", 3)]

/-- A directory stat (`S_IFDIR` plus 0755). -/
def stDirEx : StatR := ⟨0o040755, 0, 0, 0, 0, 0, 0⟩

/-- A symlink stat (`S_IFLNK` plus 0777). -/
def stLnkEx : StatR := ⟨0o120777, 0, 0, 0, 0, 0, 0⟩

/-- A live filesystem whose directory `/d` lists a child `gone` that has
vanished by the time it is stat-ed (the mid-scan `ENOENT` race). -/
def fsVanish : LiveFS where
  lstatE := fun p => if p = "/d" then .ok stDirEx else .error ENOENT
  statE := fun p => if p = "/d" then .ok stDirEx else .error ENOENT
  readlinkE := fun _ => .error ENOENT
  listdirE := fun p => if p = "/d" then .ok ["gone"] else .error ENOENT
  chks := fun _ => []

/-- A live filesystem with a dangling symlink at `/l`: `os.stat` fails with
`ENOENT`, `os.lstat` sees the link itself. -/
def fsDangling : LiveFS where
  lstatE := fun p => if p = "/l" then .ok stLnkEx else .error ENOENT
  statE := fun _ => .error ENOENT
  readlinkE := fun p => if p = "/l" then .ok "/nowhere" else .error ENOENT
  listdirE := fun _ => .error ENOENT
  chks := fun _ => []

/-! ## Theorems -/

/-- C9: `install_into_symdir_protect.trigger` returns immediately for every
input — the unconditional `return` at line 398 makes it a no-op that never
raises `BlockModification` and never touches a content set — even though the
dead body below it (lines 399-415) would raise on, e.g., a file installed
under a symlinked `/lib64`. -/
theorem install_into_symdir_protect_is_noop :
    (∀ install existing old_cset : List FsObj,
       install_into_symdir_protect_trigger install existing old_cset = .ok ()) ∧
    install_into_symdir_body
        [.fsFile ⟨"/lib64/x", 0o644, 0, 0, 0⟩ []]
        [.fsSymlink ⟨"/lib64", 0o777, 0, 0, 0⟩ "/lib"] ≠ .ok () :=
  ⟨fun _ _ _ => rfl, by decide⟩

/-- C1 counterexample: on a regular file of mode `06644` the `SFPerms`
trigger emits two warnings but the batched `cset.update` lets the second
reset (world-read cleared, mode `06640`) overwrite the first (group+world
cleared, mode `06600`), so group-read survives — contradicting the claimed
final mode with both group-read and world-read dropped. -/
theorem sfperms_mode06644_counterexample :
    ((csetLookupLoc (SFPerms_trigger [.fsFile ⟨"/usr/bin/foo", 0o6644, 0, 0, 0⟩ []]).1
        "/usr/bin/foo").map FsObj.mode = some 0o6640) ∧
    ¬ ((csetLookupLoc (SFPerms_trigger [.fsFile ⟨"/usr/bin/foo", 0o6644, 0, 0, 0⟩ []]).1
        "/usr/bin/foo").map FsObj.mode = some 0o6600) ∧
    (SFPerms_trigger [.fsFile ⟨"/usr/bin/foo", 0o6644, 0, 0, 0⟩ []]).2.length = 2 := by
  decide

/-- C2: the dedup check of `ConfigProtectInstall.trigger` is broken — the
`updates` table stores the bare basename `fn` instead of the backup filename
`x` (line 235), so the checksum comparison at line 243 reads the live
original `/etc/foo` rather than `/etc/._cfg0000_foo`.  With a backup whose
content equals the incoming replacement the trigger therefore allocates the
fresh counter `0001` instead of reusing `0000`. -/
theorem config_protect_dedup_code_bug :
    ConfigProtectInstall_trigger etcFilter "/" cpiListdEx cpiLiveEx
        [cpiExistingEx] [cpiInstallEx] =
      .ok ([.fsFile ⟨"/etc/._cfg0001_foo", 0o644, 0, 0, 0⟩ [("md5", 2), ("size", 3)]],
           [(.fsFile ⟨"/etc/._cfg0001_foo", 0o644, 0, 0, 0⟩ [("md5", 2), ("size", 3)],
             cpiInstallEx)]) ∧
    (∀ cs rn, ConfigProtectInstall_trigger etcFilter "/" cpiListdEx cpiLiveEx
        [cpiExistingEx] [cpiInstallEx] = .ok (cs, rn) →
      csetHasLoc cs "/etc/._cfg0000_foo" = false ∧
      csetHasLoc cs "/etc/._cfg0001_foo" = true) := by
  refine ⟨by decide, ?_⟩
  intro cs rn h
  have hq : ConfigProtectInstall_trigger etcFilter "/" cpiListdEx cpiLiveEx
      [cpiExistingEx] [cpiInstallEx] =
    Except.ok ([FsObj.fsFile ⟨"/etc/._cfg0001_foo", 0o644, 0, 0, 0⟩ [("md5", 2), ("size", 3)]],
         [(FsObj.fsFile ⟨"/etc/._cfg0001_foo", 0o644, 0, 0, 0⟩ [("md5", 2), ("size", 3)],
           cpiInstallEx)]) := by decide
  have h4 := Except.ok.inj (hq.symm.trans h)
  have h5 : [FsObj.fsFile ⟨"/etc/._cfg0001_foo", 0o644, 0, 0, 0⟩ [("md5", 2), ("size", 3)]] = cs :=
    congrArg Prod.fst h4
  rw [← h5]
  exact ⟨by decide, by decide⟩

/-- Lemmas about the path-keyed content-set operations. -/
theorem withMode_location (x : FsObj) (m : Nat) : (x.withMode m).location = x.location := by
  cases x <;> rfl

theorem withTarget_location (x : FsObj) (t : String) : (x.withTarget t).location = x.location := by
  cases x <;> rfl

theorem csetLookupLoc_cons (a : FsObj) (t : List FsObj) (loc : String) :
    csetLookupLoc (a :: t) loc = if a.location = loc then some a else csetLookupLoc t loc := by
  unfold csetLookupLoc
  by_cases h : a.location = loc <;> simp [List.find?, h]

theorem lookup_add (cs : List FsObj) (e : FsObj) (loc : String) :
    csetLookupLoc (csetAdd cs e) loc =
      if e.location = loc then some e else csetLookupLoc cs loc := by
  induction cs with
  | nil =>
    by_cases h : e.location = loc <;> simp [csetAdd, csetRemoveLoc, csetLookupLoc_cons, h, csetLookupLoc]
  | cons a t ih =>
    by_cases ha : a.location = e.location
    · have h1 : csetAdd (a :: t) e = csetAdd t e := by
        simp [csetAdd, csetRemoveLoc, List.filter_cons, ha]
      rw [h1, ih, csetLookupLoc_cons]
      by_cases he : e.location = loc
      · simp [he]
      · have : a.location ≠ loc := by rw [ha]; exact he
        simp [he, this]
    · have h1 : csetAdd (a :: t) e = a :: csetAdd t e := by
        simp [csetAdd, csetRemoveLoc, List.filter_cons, ha]
      rw [h1, csetLookupLoc_cons, ih, csetLookupLoc_cons]
      by_cases he : e.location = loc
      · have : a.location ≠ loc := by rw [← he]; exact ha
        simp [he, this]
      · simp [he]

theorem foldl_lastAt_gen (es : List FsObj) (loc : String) (a : Option FsObj) :
    es.foldl (fun acc x => if x.location = loc then some x else acc) a =
      optOr (lastAtLoc es loc) a := by
  induction es generalizing a with
  | nil => cases a <;> rfl
  | cons e es ih =>
    have hcons : lastAtLoc (e :: es) loc =
        optOr (lastAtLoc es loc) (if e.location = loc then some e else none) := by
      show List.foldl (fun acc x => if x.location = loc then some x else acc)
        (if e.location = loc then some e else none) es = _
      exact ih _
    rw [List.foldl_cons, ih, hcons]
    by_cases he : e.location = loc <;> cases hl : lastAtLoc es loc <;> simp [he, optOr]

theorem lastAtLoc_cons (e : FsObj) (es : List FsObj) (loc : String) :
    lastAtLoc (e :: es) loc =
      optOr (lastAtLoc es loc) (if e.location = loc then some e else none) := by
  show List.foldl (fun acc x => if x.location = loc then some x else acc)
    (if e.location = loc then some e else none) es = _
  rw [foldl_lastAt_gen]

theorem lastAtLoc_append (l1 l2 : List FsObj) (loc : String) :
    lastAtLoc (l1 ++ l2) loc = optOr (lastAtLoc l2 loc) (lastAtLoc l1 loc) := by
  unfold lastAtLoc
  rw [List.foldl_append, foldl_lastAt_gen]
  rfl

theorem lastAtLoc_eq_none (es : List FsObj) (loc : String)
    (h : ∀ e ∈ es, e.location ≠ loc) : lastAtLoc es loc = none := by
  induction es with
  | nil => rfl
  | cons e t ih =>
    rw [lastAtLoc_cons, ih (fun x hx => h x (List.mem_cons_of_mem e hx))]
    simp [h e (List.mem_cons_self e t), optOr]

theorem lookup_update (cs es : List FsObj) (loc : String) :
    csetLookupLoc (csetUpdate cs es) loc =
      optOr (lastAtLoc es loc) (csetLookupLoc cs loc) := by
  induction es generalizing cs with
  | nil => cases h : csetLookupLoc cs loc <;> simp [csetUpdate, lastAtLoc, optOr, h]
  | cons e es ih =>
    show csetLookupLoc (csetUpdate (csetAdd cs e) es) loc = _
    rw [ih, lookup_add, lastAtLoc_cons]
    by_cases he : e.location = loc <;> cases hl : lastAtLoc es loc <;> simp [he, optOr]

theorem lookup_self (cs : List FsObj) (x : FsObj)
    (hnd : (cs.map FsObj.location).Nodup) (hx : x ∈ cs) :
    csetLookupLoc cs x.location = some x := by
  induction cs with
  | nil => cases hx
  | cons a t ih =>
    rw [csetLookupLoc_cons]
    rcases List.mem_cons.1 hx with h | h
    · subst h; simp
    · have hne : a.location ≠ x.location := by
        intro hEq
        exact (List.nodup_cons.1 hnd).1 (hEq ▸ List.mem_map_of_mem FsObj.location h)
      simp [hne, ih (List.nodup_cons.1 hnd).2 h]

theorem lastAtLoc_flatMap (cs : List FsObj) (g : FsObj → List FsObj)
    (hg : ∀ y e, e ∈ g y → e.location = y.location)
    (x : FsObj) (hx : x ∈ cs) (hnd : (cs.map FsObj.location).Nodup) :
    lastAtLoc (cs.flatMap g) x.location = lastAtLoc (g x) x.location := by
  induction cs with
  | nil => cases hx
  | cons a t ih =>
    have hcons : (a :: t).flatMap g = g a ++ t.flatMap g := by simp
    rw [hcons, lastAtLoc_append]
    rcases List.mem_cons.1 hx with h | h
    · subst h
      have hnone : lastAtLoc (t.flatMap g) x.location = none := by
        apply lastAtLoc_eq_none
        intro e he
        rcases List.mem_flatMap.1 he with ⟨y, hy, hey⟩
        rw [hg y e hey]
        intro hEq
        exact (List.nodup_cons.1 hnd).1 (hEq ▸ List.mem_map_of_mem FsObj.location hy)
      rw [hnone]
      cases hl : lastAtLoc (g x) x.location <;> simp [optOr]
    · have hnone : lastAtLoc (g a) x.location = none := by
        apply lastAtLoc_eq_none
        intro e he
        rw [hg a e he]
        intro hEq
        exact (List.nodup_cons.1 hnd).1 (hEq ▸ List.mem_map_of_mem FsObj.location h)
      rw [hnone, ih h (List.nodup_cons.1 hnd).2]
      cases hl : lastAtLoc (g x) x.location <;> simp [optOr]

theorem sfpermsStep_eq (acc : List FsObj × List String) (x : FsObj) :
    sfpermsStep acc x = (acc.1 ++ sfpermsResetsOf x, acc.2 ++ sfpermsWarnsOf x) := by
  unfold sfpermsStep sfpermsResetsOf sfpermsWarnsOf
  by_cases h1 : pyAnd x.mode 0o4000 ≠ 0 <;> by_cases h2 : pyAnd x.mode 0o044 ≠ 0 <;>
    by_cases h3 : pyAnd x.mode 0o2000 ≠ 0 <;> by_cases h4 : pyAnd x.mode 0o004 ≠ 0 <;>
    simp [h1, h2, h3, h4]

theorem sfperms_foldl (files : List FsObj) (r : List FsObj) (w : List String) :
    files.foldl sfpermsStep (r, w) =
      (r ++ files.flatMap sfpermsResetsOf, w ++ files.flatMap sfpermsWarnsOf) := by
  induction files generalizing r w with
  | nil => simp
  | cons a t ih =>
    rw [List.foldl_cons, sfpermsStep_eq, ih]
    simp

theorem sfpermsResetsOf_loc (y e : FsObj) (he : e ∈ sfpermsResetsOf y) :
    e.location = y.location := by
  unfold sfpermsResetsOf at he
  rcases List.mem_append.1 he with h | h <;>
    [ by_cases hc : pyAnd y.mode 0o4000 ≠ 0 ∧ pyAnd y.mode 0o044 ≠ 0;
      by_cases hc : pyAnd y.mode 0o2000 ≠ 0 ∧ pyAnd y.mode 0o004 ≠ 0 ] <;>
    simp [hc] at h <;> rw [h] <;> exact withMode_location y _

/-- C1 (amended): for a regular file `x` of the new content set, the
`SFPerms` trigger strips group-and-world read when set-UID and
group-or-world read are both set, and strips world-read when set-GID and
world-read are both set (the converse of the claimed pairing), emitting one
warning per change; the changes are applied as one batched path-keyed
update, so when both checks fire the later world-read-only reset supersedes
the group-and-world one — `sfpermsResult` — and a `06644` file ends at
`06640` with two warnings (see the counterexample). -/
theorem sfperms_trigger_amended (cset : List FsObj) (x : FsObj)
    (hnd : (cset.map FsObj.location).Nodup) (hx : x ∈ cset) (hf : x.is_reg = true) :
    csetLookupLoc (SFPerms_trigger cset).1 x.location = some (sfpermsResult x) ∧
    (SFPerms_trigger cset).2 = (csetIterFiles cset).flatMap sfpermsWarnsOf := by
  unfold SFPerms_trigger
  rw [sfperms_foldl]
  refine ⟨?_, by simp⟩
  simp only [List.nil_append]
  rw [lookup_update]
  have hxf : x ∈ csetIterFiles cset := List.mem_filter.2 ⟨hx, hf⟩
  have hndf : ((csetIterFiles cset).map FsObj.location).Nodup :=
    ((List.filter_sublist cset).map FsObj.location).nodup hnd
  rw [lastAtLoc_flatMap _ _ sfpermsResetsOf_loc x hxf hndf]
  unfold sfpermsResetsOf sfpermsResult
  have hself := lookup_self cset x hnd hx
  by_cases c1 : pyAnd x.mode 0o4000 ≠ 0 ∧ pyAnd x.mode 0o044 ≠ 0 <;>
    by_cases c2 : pyAnd x.mode 0o2000 ≠ 0 ∧ pyAnd x.mode 0o004 ≠ 0 <;>
    simp [c1, c2, lastAtLoc_cons, lastAtLoc, withMode_location, optOr, hself]

/-- C1 witness: the amended theorem applied to the one-file `06644` set. -/
theorem sfperms_trigger_amended_witness :
    csetLookupLoc (SFPerms_trigger [.fsFile ⟨"/usr/bin/foo", 0o6644, 0, 0, 0⟩ []]).1
        (FsObj.location (.fsFile ⟨"/usr/bin/foo", 0o6644, 0, 0, 0⟩ [])) =
      some (sfpermsResult (.fsFile ⟨"/usr/bin/foo", 0o6644, 0, 0, 0⟩ [])) ∧
    (SFPerms_trigger [.fsFile ⟨"/usr/bin/foo", 0o6644, 0, 0, 0⟩ []]).2 =
      (csetIterFiles [.fsFile ⟨"/usr/bin/foo", 0o6644, 0, 0, 0⟩ []]).flatMap sfpermsWarnsOf :=
  sfperms_trigger_amended [.fsFile ⟨"/usr/bin/foo", 0o6644, 0, 0, 0⟩ []]
    (.fsFile ⟨"/usr/bin/foo", 0o6644, 0, 0, 0⟩ [])
    (by decide) (by decide) (by decide)

theorem filter_map_eq_flatMap (cs : List FsObj) (p : FsObj → Bool) (g : FsObj → FsObj) :
    (cs.filter p).map g = cs.flatMap (fun x => if p x then [g x] else []) := by
  induction cs with
  | nil => rfl
  | cons a t ih => by_cases h : p a <;> simp [List.filter_cons, h, ih]

/-- C8: for every entry `x` of the new content set, the `FixImageSymlinks`
trigger leaves at `x`'s path the same entry unless `x` is a symlink whose
target starts with `D` (trailing slashes collapsed to one), in which case
the target is replaced by `/` joined with the target minus the `D` prefix;
one warning is emitted per corrected link and nothing else changes. -/
theorem fix_image_symlinks_spec (d_source : String) (cset : List FsObj) (x : FsObj)
    (hnd : (cset.map FsObj.location).Nodup) (hx : x ∈ cset) :
    csetLookupLoc (FixImageSymlinks_trigger d_source cset).1 x.location =
      some (if x.is_sym &&
              pyStartsWith x.target (strCat (rstripAll d_source '/') "/")
            then x.withTarget (pjoin2 "/"
              (strDrop x.target (strLen (strCat (rstripAll d_source '/') "/"))))
            else x) ∧
    (FixImageSymlinks_trigger d_source cset).2 =
      ((csetIterLinks cset).filter (fun y =>
          pyStartsWith y.target (strCat (rstripAll d_source '/') "/"))).map
        (fun y => strCat "correcting "
          (strCat y.location (strCat " sym pointing into $D: " y.target))) := by
  unfold FixImageSymlinks_trigger
  refine ⟨?_, rfl⟩
  rw [lookup_update]
  have hfl : csetIterLinks cset = cset.filter FsObj.is_sym := rfl
  rw [hfl, List.filter_filter, filter_map_eq_flatMap]
  rw [lastAtLoc_flatMap cset _ ?hg x hx hnd]
  case hg =>
    intro y e he
    by_cases h1 : y.is_sym = true <;>
      by_cases h2 : pyStartsWith y.target (strCat (rstripAll d_source '/') "/") = true <;>
      simp [h1, h2] at he
    rw [he]
    exact withTarget_location y _
  have hself := lookup_self cset x hnd hx
  by_cases h1 : x.is_sym = true <;>
    by_cases h2 : pyStartsWith x.target (strCat (rstripAll d_source '/') "/") = true <;>
    simp [h1, h2, lastAtLoc_cons, lastAtLoc, withTarget_location, optOr, hself]

/-- C8 witness: a symlink pointing into `D = /build/image` is re-anchored at
`/usr/lib/y`. -/
theorem fix_image_symlinks_spec_witness :
    csetLookupLoc (FixImageSymlinks_trigger "/build/image"
        [.fsSymlink ⟨"/usr/bin/x", 0o777, 0, 0, 0⟩ "/build/image/usr/lib/y"]).1
      (FsObj.location (.fsSymlink ⟨"/usr/bin/x", 0o777, 0, 0, 0⟩ "/build/image/usr/lib/y")) =
      some (if (FsObj.is_sym (.fsSymlink ⟨"/usr/bin/x", 0o777, 0, 0, 0⟩ "/build/image/usr/lib/y")) &&
              pyStartsWith (FsObj.target (.fsSymlink ⟨"/usr/bin/x", 0o777, 0, 0, 0⟩ "/build/image/usr/lib/y"))
                (strCat (rstripAll "/build/image" '/') "/")
            then (FsObj.withTarget (.fsSymlink ⟨"/usr/bin/x", 0o777, 0, 0, 0⟩ "/build/image/usr/lib/y")
              (pjoin2 "/" (strDrop (FsObj.target (.fsSymlink ⟨"/usr/bin/x", 0o777, 0, 0, 0⟩ "/build/image/usr/lib/y"))
                (strLen (strCat (rstripAll "/build/image" '/') "/")))))
            else (.fsSymlink ⟨"/usr/bin/x", 0o777, 0, 0, 0⟩ "/build/image/usr/lib/y")) ∧
    (FixImageSymlinks_trigger "/build/image"
        [.fsSymlink ⟨"/usr/bin/x", 0o777, 0, 0, 0⟩ "/build/image/usr/lib/y"]).2 =
      ((csetIterLinks [.fsSymlink ⟨"/usr/bin/x", 0o777, 0, 0, 0⟩ "/build/image/usr/lib/y"]).filter (fun y =>
          pyStartsWith y.target (strCat (rstripAll "/build/image" '/') "/"))).map
        (fun y => strCat "correcting "
          (strCat y.location (strCat " sym pointing into $D: " y.target))) :=
  fix_image_symlinks_spec "/build/image"
    [.fsSymlink ⟨"/usr/bin/x", 0o777, 0, 0, 0⟩ "/build/image/usr/lib/y"]
    (.fsSymlink ⟨"/usr/bin/x", 0o777, 0, 0, 0⟩ "/build/image/usr/lib/y")
    (by decide) (by decide)

theorem csetHasLoc_filter_self (cs : List FsObj) (pl : String → Bool) (e : FsObj)
    (he : e ∈ cs) :
    csetHasLoc (cs.filter (fun x => pl x.location)) e.location = pl e.location := by
  by_cases h : pl e.location = true
  · have : e ∈ cs.filter (fun x => pl x.location) := List.mem_filter.2 ⟨he, h⟩
    simp only [csetHasLoc, h]
    exact List.any_eq_true.2 ⟨e, this, by simp⟩
  · simp only [csetHasLoc]
    rw [Bool.eq_false_iff.2 h]
    apply Bool.eq_false_iff.2
    intro hany
    rcases List.any_eq_true.1 hany with ⟨f, hf, hfe⟩
    have hfe2 : f.location = e.location := by simpa using hfe
    have hpf : pl f.location = true := (List.mem_filter.1 hf).2
    exact h (hfe2 ▸ hpf)

theorem csetDifference_filter_self (cs : List FsObj) (pl : String → Bool) :
    csetDifference cs (cs.filter (fun x => pl x.location)) =
      cs.filter (fun e => ! pl e.location) := by
  unfold csetDifference
  apply List.filter_congr
  intro e he
  rw [csetHasLoc_filter_self cs pl e he]

/-- C3: for install/replace operations the `collision_protect` trigger
raises `BlockModification` listing the sorted offending paths exactly when
the single-pass remainder — existing live entries minus install-manifest
directory paths, minus `.keep`-suffixed, config-protected and (for
replaces) old-package paths — is non-empty, and stays quiet otherwise. -/
theorem collision_protect_spec (pf : String → Bool)
    (install existing old_cset : List FsObj) :
    collision_protect_trigger pf install existing old_cset =
      (if collisionRemainder pf install existing old_cset = [] then none
       else some (sortStrs
         ((collisionRemainder pf install existing old_cset).map FsObj.location))) := by
  unfold collision_protect_trigger collisionRemainder
  by_cases hex : existing = []
  · subst hex; simp [csetDifference]
  · rw [if_neg hex]
    dsimp only
    rw [csetDifference_filter_self (csetDifference existing (csetIterDirs install))
      (fun loc => pyEndsWith loc ".keep" || pf loc)]
    have hR2 : (csetDifference existing (csetIterDirs install)).filter
        (fun e => ! (pyEndsWith e.location ".keep" || pf e.location)) =
        existing.filter (fun e =>
          (! csetHasLoc (csetIterDirs install) e.location &&
           ! pyEndsWith e.location ".keep") && ! pf e.location) := by
      unfold csetDifference
      rw [List.filter_filter]
      apply List.filter_congr
      intro e _
      cases csetHasLoc (csetIterDirs install) e.location <;>
        cases pyEndsWith e.location ".keep" <;> cases pf e.location <;> rfl
    rw [hR2]
    have hR3 : csetDifference (existing.filter (fun e =>
          (! csetHasLoc (csetIterDirs install) e.location &&
           ! pyEndsWith e.location ".keep") && ! pf e.location)) old_cset =
        existing.filter (fun x =>
          ! csetHasLoc (csetIterDirs install) x.location &&
          ! pyEndsWith x.location ".keep" && ! pf x.location &&
          ! csetHasLoc old_cset x.location) := by
      unfold csetDifference
      rw [List.filter_filter]
      apply List.filter_congr
      intro e _
      cases csetHasLoc (csetIterDirs install) e.location <;>
        cases pyEndsWith e.location ".keep" <;> cases pf e.location <;>
        cases csetHasLoc old_cset e.location <;> rfl
    by_cases h2 : existing.filter (fun e =>
        (! csetHasLoc (csetIterDirs install) e.location &&
         ! pyEndsWith e.location ".keep") && ! pf e.location) = []
    · rw [if_pos h2]
      have h3 : existing.filter (fun x =>
          ! csetHasLoc (csetIterDirs install) x.location &&
          ! pyEndsWith x.location ".keep" && ! pf x.location &&
          ! csetHasLoc old_cset x.location) = [] := by
        rw [← hR3, h2]
        rfl
      rw [if_pos h3]
    · rw [if_neg h2, hR3]
      by_cases h3 : existing.filter (fun x =>
          ! csetHasLoc (csetIterDirs install) x.location &&
          ! pyEndsWith x.location ".keep" && ! pf x.location &&
          ! csetHasLoc old_cset x.location) = []
      · simp [h3]
      · simp [h3]

/-- C6 counterexample: a child listed by the directory scan that has
vanished before its `lstat` makes `iter_scan` raise the `ENOENT` — the entry
is not dropped and the scan does not complete with the remaining entries, as
the claim asserts. -/
theorem iter_scan_enoent_counterexample :
    iter_scan fsVanish 4 "/d" false = .error ENOENT ∧
    iter_scan fsVanish 4 "/d" false ≠ .ok [.fsDir ⟨"/d", 0o755, 0, 0, 0⟩] := by
  decide

/-- C6 (amended): an OS error — `ENOENT` for a path that disappeared between
the directory listing and its stat included — raised while scanning a
directory's children propagates out of `iter_scan`; no entry is dropped.
`e` ranges over every errno. -/
theorem iter_scan_error_propagates (fs : LiveFS) (path : String) (follow : Bool)
    (fuel : Nat) (st : StatR) (c : String) (rest : List String) (e : Nat)
    (hroot_l : fs.lstatE (normpathS path) = .ok st)
    (hroot_s : fs.statE (normpathS path) = .ok st)
    (hdir : S_ISDIR st.st_mode = true)
    (hnreg : S_ISREG st.st_mode = false)
    (hlist : fs.listdirE (normpathS path) = .ok (c :: rest))
    (hchild_l : fs.lstatE (pjoin2 (normpathS path) c) = .error e)
    (hchild_s : fs.statE (pjoin2 (normpathS path) c) = .error e) :
    iter_scan fs (fuel + 1) path follow = .error e := by
  unfold iter_scan _internal_iter_scan
  dsimp only
  have hroot : gen_obj fs (normpathS path) none none follow =
      .ok (.fsDir ⟨normpathS path, S_IMODE st.st_mode, st.st_uid, st.st_gid, st.st_mtime⟩) := by
    cases follow <;>
      simp [gen_obj, hroot_l, hroot_s, gen_obj_from_stat, hnreg, hdir]
  rw [hroot]
  have hchild : gen_obj fs (pjoin2 (normpathS path) c) none
      (some (pjoin2 (normpathS path) c)) follow = .error e := by
    cases follow
    · simp [gen_obj, hchild_l]
    · by_cases he : e = ENOENT <;> simp [gen_obj, hchild_s, hchild_l, he]
  simp [FsObj.is_dir, scanDirs, hlist, scanChildren, hchild]

/-- C6 witness: the propagation theorem applied to the vanished-child
filesystem `fsVanish`. -/
theorem iter_scan_error_propagates_witness :
    iter_scan fsVanish (0 + 1) "/d" false = .error ENOENT :=
  iter_scan_error_propagates fsVanish "/d" false 0 stDirEx "gone" [] ENOENT
    (by decide) (by decide) (by decide) (by decide) (by decide) (by decide) (by decide)

theorem chkGet_some_iff (m : List (String × Nat)) (k : String) (v : Nat)
    (hnd : (m.map Prod.fst).Nodup) : chkGet m k = some v ↔ (k, v) ∈ m := by
  induction m with
  | nil => simp [chkGet]
  | cons p t ih =>
    have hstep : chkGet (p :: t) k = if p.1 = k then some p.2 else chkGet t k := by
      unfold chkGet
      by_cases h : p.1 = k <;> simp [List.find?, h]
    rw [hstep]
    by_cases h : p.1 = k
    · have hnot : (k, v) ∉ t := by
        intro hmem
        exact (List.nodup_cons.1 hnd).1 (h ▸ List.mem_map_of_mem Prod.fst hmem)
      rw [if_pos h]
      constructor
      · intro hv
        have hv2 : p.2 = v := Option.some.inj hv
        have hp : p = (k, v) := by
          obtain ⟨p1, p2⟩ := p
          simp only at h hv2
          rw [h, hv2]
        exact hp ▸ List.mem_cons_self p t
      · intro hmem
        rcases List.mem_cons.1 hmem with heq | hmem2
        · have : p.2 = v := congrArg Prod.snd heq.symm
          rw [this]
        · exact absurd hmem2 hnot
    · rw [if_neg h, ih (List.nodup_cons.1 hnd).2]
      constructor
      · intro hm; exact List.mem_cons_of_mem p hm
      · intro hm
        rcases List.mem_cons.1 hm with heq | hm2
        · exact absurd (congrArg Prod.fst heq.symm) h
        · exact hm2

theorem chkGet_none_iff (m : List (String × Nat)) (k : String) :
    chkGet m k = none ↔ ∀ v, (k, v) ∉ m := by
  induction m with
  | nil => simp [chkGet]
  | cons p t ih =>
    have hstep : chkGet (p :: t) k = if p.1 = k then some p.2 else chkGet t k := by
      unfold chkGet
      by_cases h : p.1 = k <;> simp [List.find?, h]
    rw [hstep]
    by_cases h : p.1 = k
    · simp only [if_pos h]
      constructor
      · intro hc; cases hc
      · intro hall
        exact absurd (List.mem_cons_self p t) (by
          have := hall p.2
          intro hmem
          exact this (by rw [← h]; exact hmem))
    · simp only [if_neg h, ih]
      constructor
      · intro hall v hmem
        rcases List.mem_cons.1 hmem with heq | hm2
        · exact h (congrArg Prod.fst heq.symm)
        · exact hall v hm2
      · intro hall v hmem
        exact hall v (List.mem_cons_of_mem p hmem)

theorem sccLoop_eq (ychk : List (String × Nat)) (l : List (String × Nat))
    (found : Bool) :
    sccLoop ychk l found =
      if l.any (sccMismatchB ychk) then .error false
      else .ok (found || l.any (sccHitB ychk)) := by
  induction l generalizing found with
  | nil => simp [sccLoop]
  | cons p t ih =>
    obtain ⟨k, v⟩ := p
    show sccLoop ychk ((k, v) :: t) found = _
    unfold sccLoop
    by_cases hk : k = "size"
    · have hmB : sccMismatchB ychk (k, v) = false := by simp [sccMismatchB, hk]
      have hhB : sccHitB ychk (k, v) = false := by simp [sccHitB, hk]
      rw [if_pos hk, ih, List.any_cons, List.any_cons, hmB, hhB, Bool.false_or, Bool.false_or]
    · rw [if_neg hk]
      cases hg : chkGet ychk k with
      | none =>
        have hmB : sccMismatchB ychk (k, v) = false := by simp [sccMismatchB, hg]
        have hhB : sccHitB ychk (k, v) = false := by simp [sccHitB, hg]
        rw [ih, List.any_cons, List.any_cons, hmB, hhB, Bool.false_or, Bool.false_or]
      | some o =>
        dsimp only
        by_cases ho : o = v
        · have hnv : ¬ o ≠ v := by simp [ho]
          have hmB : sccMismatchB ychk (k, v) = false := by
            simp [sccMismatchB, hk, hg, ho]
          have hhB : sccHitB ychk (k, v) = true := by simp [sccHitB, hk, hg]
          rw [if_neg hnv, ih, List.any_cons, List.any_cons, hmB, hhB, Bool.false_or]
          by_cases hmis : t.any (sccMismatchB ychk) = true <;> simp [hmis]
        · have hmB : sccMismatchB ychk (k, v) = true := by
            simp [sccMismatchB, hk, hg, ho]
          rw [if_pos ho, List.any_cons, hmB, Bool.true_or]
          rfl

/-- C5: `simple_chksum_compare` returns true exactly when every checksum
algorithm present in both entries (the separately-compared `size`
included) agrees, and either some non-size algorithm is shared — hence
matched — or size is shared (possibly as the only common attribute, in
which case size equality alone decides).  In particular entries with
disjoint non-size algorithm sets and equal sizes compare true, and a shared
non-size digest that differs forces false even when sizes agree. -/
theorem simple_chksum_compare_spec (x y : List (String × Nat))
    (hx : (x.map Prod.fst).Nodup) (hy : (y.map Prod.fst).Nodup) :
    simple_chksum_compare x y = true ↔
      ((∀ k v w, (k, v) ∈ x → (k, w) ∈ y → v = w) ∧
       ((∃ k v w, k ≠ "size" ∧ (k, v) ∈ x ∧ (k, w) ∈ y) ∨
        (∃ v w, ("size", v) ∈ x ∧ ("size", w) ∈ y))) := by
  unfold simple_chksum_compare
  rw [sccLoop_eq]
  by_cases hm : x.any (sccMismatchB y) = true
  · rw [if_pos hm]
    simp only [Bool.false_eq_true, false_iff]
    rintro ⟨hagree, _⟩
    rcases List.any_eq_true.1 hm with ⟨⟨k, v⟩, hmem, hpred⟩
    rw [sccMismatchB, Bool.and_eq_true] at hpred
    obtain ⟨h1, h2⟩ := hpred
    have hk : ¬ k = "size" := by simpa using h1
    cases hg : chkGet y k with
    | none => rw [hg] at h2; cases h2
    | some o =>
      rw [hg] at h2
      have hne : o ≠ v := by simpa using h2
      have hoy : (k, o) ∈ y := (chkGet_some_iff y k o hy).1 hg
      exact hne (hagree k v o hmem hoy).symm
  · rw [if_neg hm]
    have hnomis : ∀ k v w, k ≠ "size" → (k, v) ∈ x → (k, w) ∈ y → v = w := by
      intro k v w hk hvx hwy
      by_contra hne
      apply hm
      refine List.any_eq_true.2 ⟨(k, v), hvx, ?_⟩
      have hg : chkGet y k = some w := (chkGet_some_iff y k w hy).2 hwy
      simp [sccMismatchB, hk, hg]
      exact fun h => hne h.symm
    have hhit_iff : x.any (sccHitB y) = true ↔
        (∃ k v w, k ≠ "size" ∧ (k, v) ∈ x ∧ (k, w) ∈ y) := by
      constructor
      · intro hh
        rcases List.any_eq_true.1 hh with ⟨⟨k, v⟩, hmem, hpred⟩
        rw [sccHitB, Bool.and_eq_true] at hpred
        obtain ⟨h1, h2⟩ := hpred
        have hk : k ≠ "size" := by simpa using h1
        cases hg : chkGet y k with
        | none => rw [hg] at h2; cases h2
        | some o =>
          exact ⟨k, v, o, hk, hmem, (chkGet_some_iff y k o hy).1 hg⟩
      · rintro ⟨k, v, w, hk, hvx, hwy⟩
        refine List.any_eq_true.2 ⟨(k, v), hvx, ?_⟩
        have hg : chkGet y k = some w := (chkGet_some_iff y k w hy).2 hwy
        simp [sccHitB, hk, hg]
    cases hgx : chkGet x "size" with
    | none =>
      have hnosz : ¬ (∃ v w, ("size", v) ∈ x ∧ ("size", w) ∈ y) := by
        rintro ⟨v, w, hvx, _⟩
        exact (chkGet_none_iff x "size").1 hgx v hvx
      cases hgy : chkGet y "size" with
      | none =>
        simp only [Bool.false_or]
        rw [hhit_iff]
        constructor
        · intro hsh
          refine ⟨?_, Or.inl hsh⟩
          intro k v w hvx hwy
          by_cases hk : k = "size"
          · exact absurd (hk ▸ hvx) ((chkGet_none_iff x "size").1 hgx v)
          · exact hnomis k v w hk hvx hwy
        · rintro ⟨_, hsh | hsz⟩
          · exact hsh
          · exact absurd hsz hnosz
      | some sy =>
        simp only [Bool.false_or]
        rw [hhit_iff]
        constructor
        · intro hsh
          refine ⟨?_, Or.inl hsh⟩
          intro k v w hvx hwy
          by_cases hk : k = "size"
          · exact absurd (hk ▸ hvx) ((chkGet_none_iff x "size").1 hgx v)
          · exact hnomis k v w hk hvx hwy
        · rintro ⟨_, hsh | hsz⟩
          · exact hsh
          · exact absurd hsz hnosz
    | some sx =>
      have hsxm : ("size", sx) ∈ x := (chkGet_some_iff x "size" sx hx).1 hgx
      cases hgy : chkGet y "size" with
      | none =>
        have hnosz : ¬ (∃ v w, ("size", v) ∈ x ∧ ("size", w) ∈ y) := by
          rintro ⟨v, w, _, hwy⟩
          exact (chkGet_none_iff y "size").1 hgy w hwy
        simp only [Bool.false_or]
        rw [hhit_iff]
        constructor
        · intro hsh
          refine ⟨?_, Or.inl hsh⟩
          intro k v w hvx hwy
          by_cases hk : k = "size"
          · exact absurd (hk ▸ hwy) ((chkGet_none_iff y "size").1 hgy w)
          · exact hnomis k v w hk hvx hwy
        · rintro ⟨_, hsh | hsz⟩
          · exact hsh
          · exact absurd hsz hnosz
      | some sy =>
        have hsym : ("size", sy) ∈ y := (chkGet_some_iff y "size" sy hy).1 hgy
        show (sx == sy) = true ↔ _
        rw [beq_iff_eq]
        constructor
        · intro hEq
          refine ⟨?_, Or.inr ⟨sx, sy, hsxm, hsym⟩⟩
          intro k v w hvx hwy
          by_cases hk : k = "size"
          · subst hk
            have hv : v = sx := by
              have h2 := (chkGet_some_iff x "size" v hx).2 hvx
              rw [hgx] at h2
              exact (Option.some.inj h2).symm
            have hw : w = sy := by
              have h2 := (chkGet_some_iff y "size" w hy).2 hwy
              rw [hgy] at h2
              exact (Option.some.inj h2).symm
            rw [hv, hw, hEq]
          · exact hnomis k v w hk hvx hwy
        · rintro ⟨hagree, _⟩
          exact hagree "size" sx sy hsxm hsym

/-- C5 witness: the characterisation applied to two entries with disjoint
non-size algorithms and equal sizes (compare true via the size-only-shared
branch). -/
theorem simple_chksum_compare_spec_witness :
    simple_chksum_compare [("md5", 1), ("size", 3)] [("sha1", 9), ("size", 3)] = true ↔
      ((∀ k v w, (k, v) ∈ [("md5", 1), ("size", 3)] → (k, w) ∈ [("sha1", 9), ("size", 3)] → v = w) ∧
       ((∃ k v w, k ≠ "size" ∧ (k, v) ∈ [("md5", 1), ("size", 3)] ∧ (k, w) ∈ [("sha1", 9), ("size", 3)]) ∨
        (∃ v w, ("size", v) ∈ [("md5", 1), ("size", 3)] ∧ ("size", w) ∈ [("sha1", 9), ("size", 3)]))) :=
  simple_chksum_compare_spec [("md5", 1), ("size", 3)] [("sha1", 9), ("size", 3)]
    (by decide) (by decide)

theorem csetLookupLoc_loc (cs : List FsObj) (loc : String) (r : FsObj)
    (h : csetLookupLoc cs loc = some r) : r.location = loc := by
  have := List.find?_some h
  simpa using this

theorem csetLookupLoc_mem (cs : List FsObj) (loc : String) (r : FsObj)
    (h : csetLookupLoc cs loc = some r) : r ∈ cs :=
  List.mem_of_find?_eq_some h

theorem csetHasLoc_lookup (cs : List FsObj) (loc : String)
    (h : csetHasLoc cs loc = true) : ∃ r, csetLookupLoc cs loc = some r := by
  induction cs with
  | nil => cases h
  | cons a t ih =>
    rw [csetLookupLoc_cons]
    by_cases ha : a.location = loc
    · exact ⟨a, by rw [if_pos ha]⟩
    · rw [if_neg ha]
      apply ih
      rcases List.any_eq_true.1 h with ⟨f, hf, hfl⟩
      rcases List.mem_cons.1 hf with heq | hmem
      · have hfl2 : f.location = loc := by simpa using hfl
        rw [heq] at hfl2
        exact absurd hfl2 ha
      · exact List.any_eq_true.2 ⟨f, hmem, hfl⟩

theorem cpuCollect_eq (pf : String → Bool) (uninstall : List FsObj)
    (files : List FsObj)
    (hpres : ∀ x ∈ files, (! pyEndsWith x.location "/.keep" && pf x.location) = true →
      csetHasLoc uninstall x.location = true) :
    cpuCollect pf uninstall files = .ok (cpuRemoveSpec pf uninstall files) := by
  induction files with
  | nil => rfl
  | cons x rest ih =>
    have hrest : cpuCollect pf uninstall rest = .ok (cpuRemoveSpec pf uninstall rest) :=
      ih (fun z hz => hpres z (List.mem_cons_of_mem x hz))
    unfold cpuCollect cpuRemoveSpec
    by_cases hkeep : pyEndsWith x.location "/.keep" = true
    · rw [if_pos hkeep, hrest, if_neg (by simp [hkeep])]
    · rw [if_neg hkeep]
      by_cases hpf : pf x.location = true
      · have hcondT : (! pyEndsWith x.location "/.keep" && pf x.location) = true := by
          simp [hkeep, hpf]
        rw [if_pos hpf, if_pos hcondT]
        have hhas : csetHasLoc uninstall x.location = true :=
          hpres x (List.mem_cons_self x rest) hcondT
        rcases csetHasLoc_lookup uninstall x.location hhas with ⟨r, hr⟩
        rw [hr]
        dsimp only
        by_cases hcomp : simple_chksum_compareE r x = true
        · rw [if_neg (by simp [hcomp]), if_neg (by simp [hcomp]), hrest]
        · have hc2 : (! simple_chksum_compareE r x) = true := by simp [hcomp]
          rw [if_pos hc2, if_pos hc2, hrest]
          rfl
      · rw [if_neg hpf, hrest, if_neg (by simp [hkeep, hpf])]

theorem cpuRemoveSpec_mem (pf : String → Bool) (uninstall files : List FsObj)
    (e : FsObj) (he : e ∈ cpuRemoveSpec pf uninstall files) :
    e ∈ uninstall ∧ ∃ x ∈ files, e.location = x.location ∧
      (! pyEndsWith x.location "/.keep" && pf x.location) = true ∧
      simple_chksum_compareE e x = false := by
  induction files with
  | nil => cases he
  | cons x rest ih =>
    have hweak : e ∈ cpuRemoveSpec pf uninstall rest →
        e ∈ uninstall ∧ ∃ z ∈ x :: rest, e.location = z.location ∧
          (! pyEndsWith z.location "/.keep" && pf z.location) = true ∧
          simple_chksum_compareE e z = false := by
      intro h
      obtain ⟨h1, z, hz, h3⟩ := ih h
      exact ⟨h1, z, List.mem_cons_of_mem x hz, h3⟩
    unfold cpuRemoveSpec at he
    by_cases hcond : (! pyEndsWith x.location "/.keep" && pf x.location) = true
    · rw [if_pos hcond] at he
      cases hlk : csetLookupLoc uninstall x.location with
      | none => rw [hlk] at he; exact hweak he
      | some r =>
        rw [hlk] at he
        dsimp only at he
        by_cases hcomp : simple_chksum_compareE r x = true
        · rw [if_neg (by simp [hcomp])] at he
          exact hweak he
        · rw [if_pos (by simp [hcomp] : (! simple_chksum_compareE r x) = true)] at he
          rcases List.mem_cons.1 he with heq | hmem
          · subst heq
            exact ⟨csetLookupLoc_mem _ _ _ hlk,
              x, List.mem_cons_self x rest, csetLookupLoc_loc _ _ _ hlk, hcond,
              Bool.eq_false_iff.2 hcomp⟩
          · exact hweak hmem
    · rw [if_neg hcond] at he
      exact hweak he

theorem cpuRemoveSpec_mem_intro (pf : String → Bool) (uninstall files : List FsObj)
    (x e : FsObj) (hx : x ∈ files)
    (hcond : (! pyEndsWith x.location "/.keep" && pf x.location) = true)
    (hlk : csetLookupLoc uninstall x.location = some e)
    (hcomp : simple_chksum_compareE e x = false) :
    e ∈ cpuRemoveSpec pf uninstall files := by
  induction files with
  | nil => cases hx
  | cons y rest ih =>
    unfold cpuRemoveSpec
    rcases List.mem_cons.1 hx with heq | hmem
    · subst heq
      rw [if_pos hcond, hlk]
      dsimp only
      rw [if_pos (by simp [hcomp] : (! simple_chksum_compareE e x) = true)]
      exact List.mem_cons_self e _
    · have htail := ih hmem
      by_cases hcond2 : (! pyEndsWith y.location "/.keep" && pf y.location) = true
      · rw [if_pos hcond2]
        cases hlk2 : csetLookupLoc uninstall y.location with
        | none => exact htail
        | some r =>
          dsimp only
          by_cases hcomp2 : (! simple_chksum_compareE r y) = true
          · rw [if_pos hcomp2]
            exact List.mem_cons_of_mem r htail
          · rw [if_neg hcomp2]
            exact htail
      · rw [if_neg hcond2]
        exact htail

theorem cpuRemoveSpec_nodup (pf : String → Bool) (uninstall files : List FsObj)
    (hnd : (files.map FsObj.location).Nodup) :
    ((cpuRemoveSpec pf uninstall files).map FsObj.location).Nodup := by
  induction files with
  | nil => exact List.nodup_nil
  | cons x rest ih =>
    have hrest := ih (List.nodup_cons.1 hnd).2
    have hlocs : ∀ e ∈ cpuRemoveSpec pf uninstall rest,
        e.location ∈ rest.map FsObj.location := by
      intro e he
      rcases (cpuRemoveSpec_mem pf uninstall rest e he).2 with ⟨z, hz, hez, _⟩
      exact hez ▸ List.mem_map_of_mem FsObj.location hz
    show ((cpuRemoveSpec pf uninstall (x :: rest)).map FsObj.location).Nodup
    unfold cpuRemoveSpec
    by_cases hcond : (! pyEndsWith x.location "/.keep" && pf x.location) = true
    · rw [if_pos hcond]
      cases hlk : csetLookupLoc uninstall x.location with
      | none => exact hrest
      | some r =>
        dsimp only
        by_cases hcomp : (! simple_chksum_compareE r x) = true
        · rw [if_pos hcomp]
          have hrl : r.location = x.location := csetLookupLoc_loc _ _ _ hlk
          have hxnot : x.location ∉ rest.map FsObj.location := (List.nodup_cons.1 hnd).1
          rw [List.map_cons, List.nodup_cons]
          refine ⟨?_, hrest⟩
          intro hmem
          rcases List.mem_map.1 hmem with ⟨e, he, hEq⟩
          exact hxnot (hrl ▸ hEq ▸ hlocs e he)
        · rw [if_neg hcomp]
          exact hrest
    · rw [if_neg hcond]
      exact hrest

theorem csetHasLoc_removeLoc (cs : List FsObj) (loc loc' : String) (h : loc' ≠ loc) :
    csetHasLoc (csetRemoveLoc cs loc) loc' = csetHasLoc cs loc' := by
  unfold csetHasLoc csetRemoveLoc
  induction cs with
  | nil => rfl
  | cons a t ih =>
    rw [List.filter_cons]
    by_cases ha : a.location = loc
    · have hne : (a.location = loc') = False := by
        simp [ha]
        intro hc
        exact h hc.symm
      simp only [ha]
      rw [if_neg (by simp [ha])]
      rw [List.any_cons]
      simp only [hne]
      simpa using ih
    · rw [if_pos (by simp [ha])]
      rw [List.any_cons, List.any_cons]
      rw [ih]

theorem cpuDelete_eq (remove cs : List FsObj)
    (hnd : (remove.map FsObj.location).Nodup)
    (hin : ∀ e ∈ remove, csetHasLoc cs e.location = true) :
    cpuDelete remove cs =
      .ok (cs.filter (fun y => ! remove.any (fun e => e.location = y.location))) := by
  induction remove generalizing cs with
  | nil => simp [cpuDelete]
  | cons e rest ih =>
    unfold cpuDelete
    rw [if_pos (hin e (List.mem_cons_self e rest))]
    have hrest : ∀ z ∈ rest, csetHasLoc (csetRemoveLoc cs e.location) z.location = true := by
      intro z hz
      have hne : z.location ≠ e.location := by
        intro hc
        exact (List.nodup_cons.1 hnd).1 (hc ▸ List.mem_map_of_mem FsObj.location hz)
      rw [csetHasLoc_removeLoc cs e.location z.location hne]
      exact hin z (List.mem_cons_of_mem e hz)
    rw [ih (csetRemoveLoc cs e.location) (List.nodup_cons.1 hnd).2 hrest]
    unfold csetRemoveLoc
    rw [List.filter_filter]
    congr 1
    apply List.filter_congr
    intro y _
    rw [List.any_cons]
    by_cases hb : e.location = y.location
    · simp [hb]
    · have hb2 : ¬ y.location = e.location := fun h => hb h.symm
      by_cases hc : rest.any (fun z => z.location = y.location) = true <;>
        simp [hb, hb2, hc]

/-- C4: at `pre_unmerge` the `ConfigProtectUninstall` trigger removes from
the uninstall set exactly those recorded entries for which some protected
existing live file at the same path (no `/.keep` sentinel) has a checksum
that no longer matches; entries whose live checksum still matches stay in
the uninstall set and are removed from disk normally. -/
theorem config_protect_uninstall_spec (pf : String → Bool)
    (existing uninstall : List FsObj)
    (hE : ((csetIterFiles existing).map FsObj.location).Nodup)
    (hU : (uninstall.map FsObj.location).Nodup)
    (hpres : ∀ x ∈ csetIterFiles existing,
      (! pyEndsWith x.location "/.keep" && pf x.location) = true →
      csetHasLoc uninstall x.location = true) :
    ConfigProtectUninstall_trigger pf existing uninstall =
      .ok (uninstall.filter (fun e => ! cpuShouldDrop pf existing e)) := by
  unfold ConfigProtectUninstall_trigger
  rw [cpuCollect_eq pf uninstall (csetIterFiles existing) hpres]
  dsimp only
  have hin : ∀ e ∈ cpuRemoveSpec pf uninstall (csetIterFiles existing),
      csetHasLoc uninstall e.location = true := by
    intro e he
    exact List.any_eq_true.2 ⟨e, (cpuRemoveSpec_mem _ _ _ e he).1, by simp⟩
  rw [cpuDelete_eq _ uninstall (cpuRemoveSpec_nodup pf uninstall _ hE) hin]
  congr 1
  apply List.filter_congr
  intro e hemem
  have hiff : (cpuRemoveSpec pf uninstall (csetIterFiles existing)).any
      (fun r => r.location = e.location) = cpuShouldDrop pf existing e := by
    have h1 : ((cpuRemoveSpec pf uninstall (csetIterFiles existing)).any
        (fun r => r.location = e.location) = true) ↔
        (cpuShouldDrop pf existing e = true) := by
      constructor
      · intro h
        rcases List.any_eq_true.1 h with ⟨r, hr, hrl⟩
        have hrl2 : r.location = e.location := by simpa using hrl
        obtain ⟨hru, x, hx, hrx, hcond, hcomp⟩ := cpuRemoveSpec_mem _ _ _ r hr
        have hre : r = e := by
          have hinj := List.inj_on_of_nodup_map hU
          exact hinj hru hemem hrl2
        subst hre
        refine List.any_eq_true.2 ⟨x, hx, ?_⟩
        rw [Bool.and_eq_true] at hcond
        simp only [Bool.and_eq_true, decide_eq_true_eq]
        exact ⟨⟨⟨hrx.symm, hcond.1⟩, hcond.2⟩, by simp [hcomp]⟩
      · intro h
        rcases List.any_eq_true.1 h with ⟨x, hx, hxp⟩
        simp only [Bool.and_eq_true, decide_eq_true_eq] at hxp
        obtain ⟨⟨⟨hxl, hkeep⟩, hpf⟩, hcomp⟩ := hxp
        refine List.any_eq_true.2 ⟨e, ?_, by simp⟩
        have hlk : csetLookupLoc uninstall x.location = some e := by
          rw [hxl]
          exact lookup_self uninstall e hU hemem
        exact cpuRemoveSpec_mem_intro pf uninstall _ x e hx
          (by simp [hkeep, hpf]) hlk (by simpa using hcomp)
    cases ha : (cpuRemoveSpec pf uninstall (csetIterFiles existing)).any
        (fun r => r.location = e.location) <;>
      cases hb : cpuShouldDrop pf existing e <;>
      first
      | rfl
      | (exact absurd (h1.2 hb) (by simp [ha]))
      | (exact absurd (h1.1 ha) (by simp [hb]))
  rw [hiff]

/-- C4 witness: an uninstall set with one user-edited protected file (md5
differs — dropped from the uninstall set, stays on disk) and one untouched
protected file (checksums match — removed normally). -/
theorem config_protect_uninstall_spec_witness :
    ConfigProtectUninstall_trigger etcFilter
        [.fsFile ⟨"/etc/a", 0o644, 0, 0, 0⟩ [("md5", 1), ("size", 3)],
         .fsFile ⟨"/etc/b", 0o644, 0, 0, 0⟩ [("md5", 7), ("size", 4)]]
        [.fsFile ⟨"/etc/a", 0o644, 0, 0, 0⟩ [("md5", 2), ("size", 3)],
         .fsFile ⟨"/etc/b", 0o644, 0, 0, 0⟩ [("md5", 7), ("size", 4)]] =
      .ok ([.fsFile ⟨"/etc/a", 0o644, 0, 0, 0⟩ [("md5", 2), ("size", 3)],
            .fsFile ⟨"/etc/b", 0o644, 0, 0, 0⟩ [("md5", 7), ("size", 4)]].filter
        (fun e => ! cpuShouldDrop etcFilter
          [.fsFile ⟨"/etc/a", 0o644, 0, 0, 0⟩ [("md5", 1), ("size", 3)],
           .fsFile ⟨"/etc/b", 0o644, 0, 0, 0⟩ [("md5", 7), ("size", 4)]] e)) :=
  config_protect_uninstall_spec etcFilter
    [.fsFile ⟨"/etc/a", 0o644, 0, 0, 0⟩ [("md5", 1), ("size", 3)],
     .fsFile ⟨"/etc/b", 0o644, 0, 0, 0⟩ [("md5", 7), ("size", 4)]]
    [.fsFile ⟨"/etc/a", 0o644, 0, 0, 0⟩ [("md5", 2), ("size", 3)],
     .fsFile ⟨"/etc/b", 0o644, 0, 0, 0⟩ [("md5", 7), ("size", 4)]]
    (by decide) (by decide) (by decide)

/-- C10: when `gen_obj` is called without a pre-computed stat, an `ENOENT`
from the symlink-following `os.stat` is retried with `os.lstat` (so the call
behaves exactly as a non-following one, and a dangling symlink yields the
entry for the link itself); with `os.lstat` as the stat function any errno
propagates, and with `os.stat` any errno other than `ENOENT` propagates. -/
theorem gen_obj_enoent_fallback (fs : LiveFS) (p : String) (rl : Option String) :
    (fs.statE (rl.getD p) = .error ENOENT →
       gen_obj fs p none rl true = gen_obj fs p none rl false) ∧
    (∀ e, fs.lstatE (rl.getD p) = .error e →
       gen_obj fs p none rl false = .error e) ∧
    (∀ e, fs.statE (rl.getD p) = .error e → e ≠ ENOENT →
       gen_obj fs p none rl true = .error e) ∧
    (∀ st t, fs.statE (rl.getD p) = .error ENOENT →
       fs.lstatE (rl.getD p) = .ok st →
       S_ISLNK st.st_mode = true → S_ISREG st.st_mode = false →
       S_ISDIR st.st_mode = false →
       fs.readlinkE (rl.getD p) = .ok t →
       gen_obj fs p none rl true =
         .ok (.fsSymlink ⟨p, S_IMODE st.st_mode, st.st_uid, st.st_gid, st.st_mtime⟩ t)) := by
  refine ⟨?_, ?_, ?_, ?_⟩
  · intro hs
    cases hl : fs.lstatE (rl.getD p) <;> simp [gen_obj, hs, hl]
  · intro e hl
    simp [gen_obj, hl]
  · intro e hs hne
    simp [gen_obj, hs, hne]
  · intro st t hs hl hlnk hnreg hndir hrd
    simp [gen_obj, hs, hl, gen_obj_from_stat, hlnk, hnreg, hndir, hrd]

theorem assocGet_cons {β : Type} (p : String × List β) (t : List (String × List β))
    (k : String) :
    assocGet (p :: t) k = if p.1 = k then some p.2 else assocGet t k := by
  unfold assocGet
  by_cases h : p.1 = k <;> simp [List.find?, h]

theorem assocAny_isSome {β : Type} (d : List (String × List β)) (k : String) :
    d.any (fun q => q.1 = k) = (assocGet d k).isSome := by
  induction d with
  | nil => rfl
  | cons p t ih =>
    rw [List.any_cons, assocGet_cons]
    by_cases h : p.1 = k <;> simp [h, ih]

theorem assocGet_map_update {β : Type} (d : List (String × List β)) (k : String)
    (v : β) (kq : String) :
    assocGet (d.map (fun p => if p.1 = k then (p.1, p.2 ++ [v]) else p)) kq =
      if kq = k then (assocGet d k).map (· ++ [v]) else assocGet d kq := by
  induction d with
  | nil => by_cases h : kq = k <;> simp [assocGet, h]
  | cons p t ih =>
    rw [List.map_cons]
    by_cases hp : p.1 = k <;> by_cases hq : kq = k <;> by_cases hpq : p.1 = kq <;>
      simp_all [assocGet_cons]

theorem assocGet_append_one {β : Type} (d : List (String × List β)) (k : String)
    (v : β) (kq : String) (hnone : assocGet d k = none) :
    assocGet (d ++ [(k, [v])]) kq = if kq = k then some [v] else assocGet d kq := by
  induction d with
  | nil =>
    rw [List.nil_append, assocGet_cons]
    by_cases h : kq = k
    · rw [if_pos h, if_pos h.symm]
    · rw [if_neg h, if_neg (fun hh => h hh.symm)]
  | cons p t ih =>
    rw [assocGet_cons] at hnone
    have hp : ¬ p.1 = k := by
      intro hc
      rw [if_pos hc] at hnone
      cases hnone
    rw [if_neg hp] at hnone
    rw [List.cons_append, assocGet_cons, assocGet_cons, ih hnone]
    by_cases hpq : p.1 = kq
    · have hq : ¬ kq = k := by rw [← hpq]; exact hp
      rw [if_pos hpq, if_pos hpq, if_neg hq]
    · rw [if_neg hpq, if_neg hpq]

theorem assocGet_assocAppend {β : Type} (d : List (String × List β)) (k : String)
    (v : β) (kq : String) :
    assocGet (assocAppend d k v) kq =
      if kq = k then some ((assocGet d k).getD [] ++ [v]) else assocGet d kq := by
  unfold assocAppend
  by_cases hany : d.any (fun q => q.1 = k) = true
  · rw [if_pos hany, assocGet_map_update]
    rw [assocAny_isSome] at hany
    cases hg : assocGet d k with
    | none => rw [hg] at hany; cases hany
    | some l => by_cases hq : kq = k <;> simp [hq, hg]
  · rw [if_neg hany]
    rw [assocAny_isSome] at hany
    have hnone : assocGet d k = none := by
      cases hg : assocGet d k with
      | none => rfl
      | some l => rw [hg] at hany; simp at hany
    rw [assocGet_append_one d k v kq hnone, hnone]
    by_cases hq : kq = k <;> simp [hq]

theorem gatherItems_cons (k : String) (kv : String × String)
    (items : List (String × String)) :
    gatherItems k (kv :: items) =
      if kv.1 = k then kv.2 :: gatherItems k items else gatherItems k items := by
  unfold gatherItems
  by_cases h : kv.1 = k <;> simp [List.filter_cons, h]

theorem optExtend_nil (o : Option (List String)) : optExtend o [] = o := by
  cases o <;> simp [optExtend]

theorem optExtend_some (l vs : List String) : optExtend (some l) vs = some (l ++ vs) := by
  cases vs <;> simp [optExtend]

theorem optExtend_assoc (o : Option (List String)) (vs ws : List String) :
    optExtend (optExtend o vs) ws = optExtend o (vs ++ ws) := by
  cases o <;> cases vs <;> cases ws <;> simp [optExtend]

theorem envdCollect_items (items : List (String × String))
    (d : List (String × List String)) (k : String) :
    assocGet (items.foldl (fun d kv => assocAppend d kv.1 kv.2) d) k =
      optExtend (assocGet d k) (gatherItems k items) := by
  induction items generalizing d with
  | nil => rw [List.foldl_nil]; exact (optExtend_nil _).symm
  | cons kv t ih =>
    rw [List.foldl_cons, ih, assocGet_assocAppend, gatherItems_cons]
    by_cases h : kv.1 = k
    · rw [if_pos h.symm, if_pos h, h]
      cases hg : assocGet d k with
      | none => simp [hg, optExtend_some, optExtend]
      | some l => simp [hg, optExtend_some]
    · rw [if_neg (fun hh => h hh.symm), if_neg h]

theorem envdCollect_files (fl : List (String × List (String × String)))
    (d : List (String × List String)) (k : String) :
    assocGet (fl.foldl (fun d f => f.2.foldl (fun d kv => assocAppend d kv.1 kv.2) d) d) k =
      optExtend (assocGet d k) (fl.flatMap (fun f => gatherItems k f.2)) := by
  induction fl generalizing d with
  | nil => rw [List.foldl_nil, List.flatMap_nil]; exact (optExtend_nil _).symm
  | cons f t ih =>
    rw [List.foldl_cons, ih, envdCollect_items, optExtend_assoc, List.flatMap_cons]

theorem envdCollect_gather (frags : List (String × List (String × String)))
    (k : String) :
    assocGet (envdCollect frags) k =
      if envdGather frags k = [] then none else some (envdGather frags k) := by
  unfold envdCollect envdGather
  rw [envdCollect_files]
  cases hg : (envdFragments frags).flatMap (fun f => gatherItems k f.2) with
  | nil => rfl
  | cons a t => simp [optExtend, assocGet]

theorem envdCollect_gather_getD (frags : List (String × List (String × String)))
    (k : String) :
    (assocGet (envdCollect frags) k).getD [] = envdGather frags k := by
  rw [envdCollect_gather]
  by_cases h : envdGather frags k = [] <;> simp [h]

theorem assocGet_pop (d : List (String × List String)) (k kq : String) :
    assocGet ((assocPop d k).2) kq = if kq = k then none else assocGet d kq := by
  unfold assocPop
  induction d with
  | nil => by_cases h : kq = k <;> simp [assocGet, h]
  | cons p t ih =>
    rw [List.filter_cons]
    by_cases hp : p.1 = k
    · rw [if_neg (by simp [hp])]
      rw [ih, assocGet_cons]
      by_cases hq : kq = k
      · rw [if_pos hq, if_pos hq]
      · have : ¬ p.1 = kq := by rw [hp]; exact fun h => hq h.symm
        rw [if_neg hq, if_neg hq, if_neg this]
    · rw [if_pos (by simp [hp])]
      rw [assocGet_cons, assocGet_cons, ih]
      by_cases hpq : p.1 = kq
      · have hq : ¬ kq = k := by rw [← hpq]; exact hp
        rw [if_pos hpq, if_pos hpq, if_neg hq]
      · rw [if_neg hpq, if_neg hpq]

theorem foldl_guard_append (xs : List String) (init : List String) :
    xs.foldl (fun s x => let v := pySplitWs x; if v ≠ [] then s ++ v else s) init =
      init ++ xs.flatMap pySplitWs := by
  induction xs generalizing init with
  | nil => simp
  | cons x t ih =>
    rw [List.foldl_cons, ih, List.flatMap_cons]
    by_cases h : pySplitWs x = [] <;> simp [h, List.append_assoc]

theorem envdLookup_cons (q : String × EnvVal) (t : List (String × EnvVal))
    (k : String) :
    envdLookup (q :: t) k = if q.1 = k then some q.2 else envdLookup t k := by
  unfold envdLookup
  by_cases h : q.1 = k <;> simp [List.find?, h]

theorem envdLookup_reinterpret (d : List (String × List String))
    (inc colon : List String) (k : String) :
    envdLookup (d.map (fun kv =>
      if ! setMem inc kv.1 then (kv.1, EnvVal.str (kv.2.getLastD ""))
      else if setMem colon kv.1 then
        (kv.1, EnvVal.toks ((kv.2.flatMap pySplitColon).filter (· ≠ "")))
      else (kv.1, EnvVal.toks ((kv.2.flatMap pySplitWs).filter (· ≠ ""))))) k =
      (assocGet d k).map (envdReinterpret inc colon k) := by
  induction d with
  | nil => simp [envdLookup, assocGet]
  | cons p t ih =>
    rw [List.map_cons, assocGet_cons]
    by_cases hi : setMem inc p.1 = true <;> by_cases hc : setMem colon p.1 = true <;>
      by_cases h : p.1 = k <;>
      simp_all [envdLookup_cons, envdReinterpret]

theorem collapse_envd_sets (frags : List (String × List (String × String))) :
    (collapse_envd frags).2.1 = envdEffInc frags ∧
    (collapse_envd frags).2.2 = envdEffColon frags := by
  unfold collapse_envd
  dsimp only
  have hcv : (assocPop (envdCollect frags) "COLON_SEPARATED").1 =
      envdGather frags "COLON_SEPARATED" := by
    show (assocGet (envdCollect frags) "COLON_SEPARATED").getD [] = _
    exact envdCollect_gather_getD frags "COLON_SEPARATED"
  have hsv : (assocPop (assocPop (envdCollect frags) "COLON_SEPARATED").2
      "SPACE_SEPARATED").1 = envdGather frags "SPACE_SEPARATED" := by
    show (assocGet (assocPop (envdCollect frags) "COLON_SEPARATED").2
      "SPACE_SEPARATED").getD [] = _
    rw [assocGet_pop, if_neg (by decide)]
    exact envdCollect_gather_getD frags "SPACE_SEPARATED"
  rw [hcv, hsv, foldl_guard_append, foldl_guard_append]
  exact ⟨rfl, rfl⟩

theorem collapse_envd_lookup (frags : List (String × List (String × String)))
    (k : String) (h1 : k ≠ "COLON_SEPARATED") (h2 : k ≠ "SPACE_SEPARATED") :
    envdLookup (collapse_envd frags).1 k =
      (if envdGather frags k = [] then none
       else some (envdReinterpret (envdEffInc frags) (envdEffColon frags) k
         (envdGather frags k))) := by
  have hsets := collapse_envd_sets frags
  unfold collapse_envd
  dsimp only
  unfold collapse_envd at hsets
  dsimp only at hsets
  rw [envdLookup_reinterpret]
  rw [hsets.1, hsets.2]
  have hd2 : assocGet (assocPop (assocPop (envdCollect frags) "COLON_SEPARATED").2
      "SPACE_SEPARATED").2 k = assocGet (envdCollect frags) k := by
    rw [assocGet_pop, if_neg h2, assocGet_pop, if_neg h1]
  rw [hd2, envdCollect_gather]
  by_cases hg : envdGather frags k = [] <;> simp [hg]

/-- C7: `collapse_envd`, over the digit-named fragments in filename-sorted
order, collapses every non-incremental key to its last-seen value and every
incremental key to the colon- or whitespace-token-split concatenation of all
its values in encounter order (empty tokens discarded, duplicates kept),
where the effective colon and incremental name sets are the built-ins
extended by the names listed in `COLON_SEPARATED` and `SPACE_SEPARATED`
values; in particular `50foo: PATH=/a` with `60bar: PATH=/b` collapses to
`PATH = ["/a", "/b"]`, and a fragment declaring `SPACE_SEPARATED=MYVAR`
makes `MYVAR` collapse whitespace-joined instead of last-value-wins. -/
theorem collapse_envd_spec :
    (∀ (frags : List (String × List (String × String))) (k : String),
      k ≠ "COLON_SEPARATED" → k ≠ "SPACE_SEPARATED" →
      envdLookup (collapse_envd frags).1 k =
        (if envdGather frags k = [] then none
         else some (envdReinterpret (envdEffInc frags) (envdEffColon frags) k
           (envdGather frags k)))) ∧
    (∀ frags : List (String × List (String × String)),
      (collapse_envd frags).2.1 = envdEffInc frags ∧
      (collapse_envd frags).2.2 = envdEffColon frags) ∧
    envdLookup (collapse_envd
      [("50foo", [("PATH", "/a")]), ("60bar", [("PATH", "/b")])]).1 "PATH" =
        some (.toks ["/a", "/b"]) ∧
    envdLookup (collapse_envd
      [("50a", [("SPACE_SEPARATED", "MYVAR")]), ("60b", [("MYVAR", "x y")])]).1 "MYVAR" =
        some (.toks ["x", "y"]) ∧
    setMem (collapse_envd
      [("50a", [("SPACE_SEPARATED", "MYVAR")]), ("60b", [("MYVAR", "x y")])]).2.1
      "MYVAR" = true :=
  ⟨collapse_envd_lookup, collapse_envd_sets, by decide, by decide, by decide⟩

/-- C7 witness: the per-key characterisation applied to the `50foo`/`60bar`
`PATH` fragments. -/
theorem collapse_envd_spec_witness :
    envdLookup (collapse_envd
      [("50foo", [("PATH", "/a")]), ("60bar", [("PATH", "/b")])]).1 "PATH" =
      (if envdGather [("50foo", [("PATH", "/a")]), ("60bar", [("PATH", "/b")])] "PATH" = []
       then none
       else some (envdReinterpret
         (envdEffInc [("50foo", [("PATH", "/a")]), ("60bar", [("PATH", "/b")])])
         (envdEffColon [("50foo", [("PATH", "/a")]), ("60bar", [("PATH", "/b")])])
         "PATH"
         (envdGather [("50foo", [("PATH", "/a")]), ("60bar", [("PATH", "/b")])] "PATH"))) :=
  collapse_envd_spec.1 [("50foo", [("PATH", "/a")]), ("60bar", [("PATH", "/b")])]
    "PATH" (by decide) (by decide)

/-- C10 witness: the fallback theorem applied to the dangling-symlink
filesystem `fsDangling` at `/l`. -/
theorem gen_obj_enoent_fallback_witness :
    gen_obj fsDangling "/l" none none true = gen_obj fsDangling "/l" none none false ∧
    gen_obj fsDangling "/x" none none false = .error ENOENT ∧
    gen_obj fsDangling "/l" none none true =
      .ok (.fsSymlink ⟨"/l", S_IMODE stLnkEx.st_mode, stLnkEx.st_uid, stLnkEx.st_gid,
        stLnkEx.st_mtime⟩ "/nowhere") :=
  ⟨(gen_obj_enoent_fallback fsDangling "/l" none).1 (by decide),
   (gen_obj_enoent_fallback fsDangling "/x" none).2.1 ENOENT (by decide),
   (gen_obj_enoent_fallback fsDangling "/l" none).2.2.2 stLnkEx "/nowhere"
     (by decide) (by decide) (by decide) (by decide) (by decide) (by decide)⟩

end Pkgcore
